import Mathlib

/-!
# Loot exchange web front end

A shallow embedding of `apps/web/utils.js`, `apps/web/hooks/useBag.js` and
`apps/web/ui/ListingModal.js`, followed by the properties proved about them.

* JavaScript values are the type `UseBag.Val`; an object is given by its property
  lookup.
* Numbers are binary64 doubles: a finite number is the rational it denotes, and the
  result of a division is the exact quotient rounded to nearest, ties to even.
* React state is explicit. A `setState` call is a state update followed by the effects
  whose dependency changed. An `async` function suspended at an `await` is a `Task`
  that holds the variables its closure captured in the render that started it.
* External calls (the wallet, the contracts, the HTTP and GraphQL endpoints) are
  answered by the environment: an `Event` delivers the reply.
-/

namespace Utils

/-- A JavaScript number: a finite value, an infinity or NaN. The finite values that occur
are the binary64 doubles, see `IsDouble`. -/
inductive JSNum where
  | fin (q : ℚ)
  | posInf
  | negInf
  | nan
  deriving DecidableEq

/-- Rounding of a rational to the nearest integer, ties to the even one. -/
def roundHalfEven (x : ℚ) : ℤ :=
  if x - ⌊x⌋ < 1 / 2 then ⌊x⌋
  else if 1 / 2 < x - ⌊x⌋ then ⌊x⌋ + 1
  else if ⌊x⌋ % 2 = 0 then ⌊x⌋
  else ⌊x⌋ + 1

/-- The exponent of the unit in the last place of the doubles around `x > 0`: 52 below
the binary exponent of `x`, and never under that of the subnormal numbers. -/
def ulpExponent (x : ℚ) : ℤ := max (Int.log 2 x - 52) (-1074)

/-- The multiple of the unit in the last place nearest to `x ≥ 0`, ties to even. -/
def roundMagnitude (x : ℚ) : ℚ :=
  roundHalfEven (x / 2 ^ ulpExponent x) * 2 ^ ulpExponent x

/-- The binary64 rounding of an exact result (round to nearest, ties to even): what an
arithmetic operation of JavaScript returns for the exact value `x`. A magnitude that rounds
to `2^1024` or more overflows to an infinity. -/
def roundDouble (x : ℚ) : JSNum :=
  if 0 ≤ x then
    if 2 ^ 1024 ≤ roundMagnitude x then .posInf else .fin (roundMagnitude x)
  else
    if 2 ^ 1024 ≤ roundMagnitude (-x) then .negInf else .fin (-roundMagnitude (-x))

/-- The test `newValue >= 1000` of the loop of `abbreviateNumber`. -/
def JSNum.ge1000 : JSNum → Bool
  | .fin q => decide (1000 ≤ q)
  | .posInf => true
  | .negInf => false
  | .nan => false

/-- The update `newValue /= 1000`: the exact quotient, rounded to a double. -/
def JSNum.div1000 : JSNum → JSNum
  | .fin q => roundDouble (q / 1000)
  | .posInf => .posInf
  | .negInf => .negInf
  | .nan => .nan

/-- The test `value >= 0`. -/
def JSNum.nonneg : JSNum → Bool
  | .fin q => decide (0 ≤ q)
  | .posInf => true
  | .negInf => false
  | .nan => false

/-- The table `suffixes` of `abbreviateNumber`. -/
def suffixes : List String := ["", "K", "M", "B", "T"]

/-- The loop `while (newValue >= 1000) { newValue /= 1000; suffixNum++ }` of
`abbreviateNumber`, for at most `fuel` tests of its condition: the pair of `newValue` and
`suffixNum` on exit, `none` when the loop is still running after `fuel` tests. -/
def abbreviateLoop : Nat → JSNum → Nat → Option (JSNum × Nat)
  | 0, _, _ => none
  | fuel + 1, newValue, suffixNum =>
    if newValue.ge1000 then abbreviateLoop fuel newValue.div1000 (suffixNum + 1)
    else some (newValue, suffixNum)

/-- The lookup `suffixes[suffixNum]`: `none` is `undefined`. -/
def suffixLookup (suffixNum : Nat) : Option String := suffixes[suffixNum]?

/-- The finite non-negative doubles: a significand below `2^53` times a power of two
between `2^-1074` and `2^971`. -/
def IsDouble (q : ℚ) : Prop :=
  ∃ (m : ℕ) (e : ℤ), m < 2 ^ 53 ∧ -1074 ≤ e ∧ e ≤ 971 ∧ q = m * 2 ^ e

/-- The largest double below `1000^k`, for `k` from 1 to 5. -/
def belowPow1000 (k : ℕ) : ℚ := 1000 ^ k - 2 ^ ((10 * k : ℤ) - 53)

/-- The function `shortenAddress`: `address.slice(0, 3) + "..." + address.slice(-3)`. -/
def shortenAddress (address : String) : String :=
  String.mk (address.data.take 3) ++ "..." ++
    String.mk (address.data.drop (address.data.length - 3))

end Utils

namespace UseBag

/-- A JavaScript value. Objects and arrays whose contents `useBag` never reads (the
`transfers` array, an avatar record) are kept by reference. -/
inductive Val where
  | undefined
  | null
  | bool (b : Bool)
  | num (x : Utils.JSNum)
  | str (s : String)
  | ref (id : Nat)
  deriving DecidableEq

/-- Truthiness, as tested by `!!v`, `v || w` and `if (v)`. -/
def Val.truthy : Val → Bool
  | .undefined => false
  | .null => false
  | .bool b => b
  | .num (.fin q) => decide (q ≠ 0)
  | .num .nan => false
  | .num _ => true
  | .str s => decide (s ≠ "")
  | .ref _ => true

/-- Strict equality `a === b`. -/
def Val.strictEq : Val → Val → Bool
  | .num .nan, _ => false
  | a, b => decide (a = b)

/-- A plain object, given by its property lookup: `none` for a property the object
does not have. -/
abbrev Obj := String → Option Val

/-- The empty object literal. -/
def Obj.empty : Obj := fun _ => none

/-- Property read `o.k`: `undefined` when the property is missing. -/
def Obj.getProp (o : Obj) (k : String) : Val := (o k).getD .undefined

/-- The literal `{ ...a, ...b }`: the properties of `b` win. -/
def Obj.spread (a b : Obj) : Obj := fun k =>
  match b k with
  | some v => some v
  | none => a k

/-- The literal `{ ...o, k: v }`. -/
def Obj.set (o : Obj) (k : String) (v : Val) : Obj := fun k' =>
  if k' = k then some v else o k'

/-- The call `shortenAddress(v)` on a JavaScript value; `none` when it throws (the
value has no string `slice`). -/
def callShortenAddress : Val → Option Val
  | .str s => some (.str (Utils.shortenAddress s))
  | _ => none

/-- The record `getBag` passes to `setBag`, from the token object of the metadata
response and `bagData`, the result of `bags.find` (`none` when no entry matches);
`none` when building the record throws. -/
def getBag (token : Obj) (bagData : Option Obj) : Option Obj :=
  match callShortenAddress (token.getProp "owner") with
  | none => none
  | some shortName =>
    some ((((Obj.spread (Obj.spread Obj.empty token) (bagData.getD Obj.empty)).set
      "shortName" shortName).set
      "isForSale" (.bool (token.getProp "listingPrice").truthy)).set
      "price" (token.getProp "listingPrice"))

/-- The record `getTransfers` passes to `setBag`: `{ ...bag, transfers: data.transfers }`
for the `bag` its closure captured. -/
def getTransfers (bag : Obj) (transfers : Val) : Obj := bag.set "transfers" transfers

/-- The record `getEnsName` passes to `setBag` for the `bag` and the `currentUser` its
closure captured, the resolved name `ens` and the `avatar`; `none` when building the
record throws. -/
def getEnsName (bag : Obj) (currentUser : Obj) (ens avatar : Val) : Option Obj :=
  let ownerAddress := bag.getProp "owner"
  match (if ens.truthy = true then some ens else callShortenAddress ownerAddress) with
  | none => none
  | some shortName =>
    some (((bag.set
      "isOwnBag" (.bool (ownerAddress.strictEq (currentUser.getProp "address")))).set
      "ownerAvatar" avatar).set
      "shortName" shortName)

/-- An asynchronous function of the hook suspended at an `await`, with the variables
its closure captured. -/
inductive Fetch where
  | fetchInfo (bagData : Option Obj)
  | fetchBag (bag : Obj)
  | getEnsName (bag : Obj) (currentUser : Obj)
  | getAvatar (bag : Obj) (currentUser : Obj) (ens : Val)

/-- What an awaited call resolves with. -/
inductive Response where
  | token (token : Obj)
  | value (v : Val)
  | fail

/-- The state of one `useBag(id)` instance: the `bag` state variable, the value of
`useCurrentUser()` and the suspended functions. -/
structure Hook where
  bag : Option Obj
  currentUser : Option Obj
  tasks : List Fetch

/-- The dependency `bagId = bag && bag.id`. -/
def Hook.bagId (h : Hook) : Val :=
  match h.bag with
  | none => .null
  | some bag => bag.getProp "id"

/-- The body of the effect on `[bagId]`: `if (bag) getTransfers()`. -/
def effectTransfers (h : Hook) : Hook :=
  match h.bag with
  | none => h
  | some bag => { h with tasks := h.tasks ++ [.fetchBag bag] }

/-- The body of the effect on `[currentUser, bagId]`:
`if (currentUser && bag) getEnsName()`. -/
def effectEns (h : Hook) : Hook :=
  match h.currentUser, h.bag with
  | some currentUser, some bag => { h with tasks := h.tasks ++ [.getEnsName bag currentUser] }
  | _, _ => h

/-- The call `setBag(v)` and the render that follows: the two effects run, in source
order, when `bagId` changed. -/
def setBag (v : Obj) (h : Hook) : Hook :=
  let h' := { h with bag := some v }
  if h'.bagId = h.bagId then h' else effectEns (effectTransfers h')

/-- The first render of `useBag(id)` for a truthy `id`: `bag` is `null`, so only
`getBag` starts. -/
def Hook.mount (bagData : Option Obj) (currentUser : Option Obj) : Hook :=
  { bag := none, currentUser := currentUser, tasks := [.fetchInfo bagData] }

/-- The continuation of a suspended function on the reply to its awaited call. A
rejection, or an exception while building the record, ends the function with no state
update. -/
def settle (h : Hook) : Fetch → Response → Hook
  | .fetchInfo bagData, r =>
    match r with
    | .token token =>
      match getBag token bagData with
      | some v => setBag v h
      | none => h
    | _ => h
  | .fetchBag bag, r =>
    match r with
    | .value transfers => setBag (getTransfers bag transfers) h
    | _ => h
  | .getEnsName bag currentUser, r =>
    match r with
    | .value ens => { h with tasks := h.tasks ++ [.getAvatar bag currentUser ens] }
    | _ => h
  | .getAvatar bag currentUser ens, r =>
    match r with
    | .value avatar =>
      match getEnsName bag currentUser ens avatar with
      | some v => setBag v h
      | none => h
    | _ => h

/-- An event of the hook: `useCurrentUser()` returns a new value, or the awaited call
of the `i`-th suspended function settles. -/
inductive HookEvent where
  | currentUser (u : Option Obj)
  | deliver (i : Nat) (r : Response)

/-- One event of the hook. -/
def hookStep (h : Hook) : HookEvent → Hook
  | .currentUser u => effectEns { h with currentUser := u }
  | .deliver i r =>
    match h.tasks[i]? with
    | none => h
    | some t => settle { h with tasks := h.tasks.eraseIdx i } t r

/-- The events of a list, in order. -/
def hookRun (h : Hook) (es : List HookEvent) : Hook := es.foldl hookStep h

/-- The prefix the spec calls "the first three characters". -/
def firstThree (owner : String) : List Char := owner.data.take 3

/-- The suffix the spec calls "the last three characters". -/
def lastThree (owner : String) : List Char := (owner.data.reverse.take 3).reverse

/-- The truncated form of an address in the spec's words: the first three characters,
then `...`, then the last three. -/
def truncatedForm (owner : String) : String :=
  String.mk (firstThree owner ++ ['.', '.', '.'] ++ lastThree owner)

/-- The property `k` of the hook's `bag`, `none` while `bag` is `null` or lacks it. -/
def Hook.bagField (h : Hook) (k : String) : Option Val := h.bag.bind (fun bag => bag k)

/-- A token object as the metadata endpoint returns it, with no listing. -/
def exampleToken : Obj := fun k =>
  if k = "owner" then some (.str "0xABCDEF0123")
  else if k = "listingPrice" then some .null
  else none

/-- The static dataset entry of item 42. -/
def exampleBagData : Obj := fun k =>
  if k = "id" then some (.num (.fin 42))
  else if k = "name" then some (.str "Bag #42")
  else none

/-- A signed-in user, the owner of the example token. -/
def exampleUser : Obj := fun k =>
  if k = "address" then some (.str "0xABCDEF0123") else none

/-- The record the metadata merge builds from the example token and dataset entry. -/
def exampleRecord : Obj :=
  (((Obj.spread (Obj.spread Obj.empty exampleToken) exampleBagData).set
    "shortName" (.str "0xA...123")).set
    "isForSale" (.bool false)).set
    "price" .null

/-- The hook once the metadata of the example token has arrived, with a user signed
in: both `getTransfers` and `getEnsName` have started. -/
def exampleHook : Hook :=
  hookStep (Hook.mount (some exampleBagData) (some exampleUser)) (.deliver 0 (.token exampleToken))

end UseBag

namespace ListingModal

/-- An address as a string, the way ethers returns it. -/
abbrev Address := String

/-- The constant `AddressZero` of `@ethersproject/constants`. -/
def AddressZero : Address := "0x0000000000000000000000000000000000000000"

/-- The method `toLowerCase` on the letters an address can hold. -/
def toLowerCase (s : String) : String := String.mk (s.data.map Char.toLower)

/-- The state of one step: `null` is `none`. -/
structure Step where
  pending : Option Bool
  success : Option Bool
  error : Option String
  tx : Option String
  deriving DecidableEq

/-- The value `initStep`. -/
def initStep : Step := { pending := none, success := none, error := none, tx := none }

/-- The props `collection` and `tokenId` of the component (`signer` is the
environment that answers the calls). -/
structure Props where
  collection : Address
  tokenId : Nat

/-- What the environment supplies when an event is handled: `Date.now()` in
milliseconds and the 32 random bytes of the salt. -/
structure Env where
  now : Nat
  salt : Nat

/-- The argument of `Builders.Erc721.SingleItem.sell`. -/
structure SellOrderArgs where
  exchange : Address
  maker : Option Address
  target : Address
  tokenId : Nat
  paymentToken : Address
  basePrice : Nat
  fee : Nat
  feeRecipient : Option Address
  listingTime : Int
  expirationTime : Nat
  salt : Nat
  deriving DecidableEq

/-- An invocation of a step function or a call to the wallet, a contract or the
order book, as recorded in the history of the component. -/
inductive Call where
  | executeStep1
  | executeStep2
  | executeStep3
  | ownerOf (tokenId : Nat)
  | getAddress
  | proxies (address : Option Address)
  | registerProxy
  | wait (hash : String)
  | isApprovedForAll (owner operator : Option Address)
  | getApproved (tokenId : Nat)
  | setApprovalForAll (operator : Option Address)
  | sign (order : SellOrderArgs)
  | post (order : SellOrderArgs)
  deriving DecidableEq

/-- A step function suspended on a call, with what its closure captured: the step
state and `signerAddress`, `userProxy` of the render in which the effect ran. The
constructors `waitRegister`, `proxiesAgain` and `waitApproval` are the promise chains
started inside a `.then` callback and not returned from it. -/
inductive Task where
  | ownerOf (step1 : Step) (signerAddress : Option Address)
  | getAddress (step1 : Step) (signerAddress : Option Address)
  | proxies (step1 : Step) (signerAddress : Option Address)
  | registerProxy (step1 : Step) (signerAddress : Option Address)
  | waitRegister (hash : String) (signerAddress : Option Address)
  | proxiesAgain (hash : String)
  | isApprovedForAll (step2 : Step) (signerAddress userProxy : Option Address)
  | getApproved (step2 : Step) (signerAddress userProxy : Option Address)
  | setApprovalForAll (step2 : Step)
  | waitApproval (hash : String)
  | sign (order : SellOrderArgs)
  | post
  deriving DecidableEq

/-- How a call settles: with an address, a boolean, a transaction response, with no
value of interest, or by rejecting. -/
inductive Reply where
  | address (a : Address)
  | bool (b : Bool)
  | tx (hash : String)
  | done
  | fail
  deriving DecidableEq

/-- The state of a mounted `ListingModal`: its state variables, the suspended step
functions and the history of calls. -/
structure Modal where
  isOpen : Bool
  initialized : Bool
  step1 : Step
  step2 : Step
  step3 : Step
  signerAddress : Option Address
  userProxy : Option Address
  tasks : List Task
  log : List Call
  deriving DecidableEq

/-- The component after its first render. -/
def Modal.mount : Modal :=
  { isOpen := false, initialized := false, step1 := initStep, step2 := initStep,
    step3 := initStep, signerAddress := none, userProxy := none, tasks := [], log := [] }

/-- The explorer link of a transaction. -/
def explorerLink (hash : String) : String := "https://rinkeby.etherscan.io/tx/" ++ hash

/-- The argument `executeStep3` builds for `Builders.Erc721.SingleItem.sell`. -/
def sellOrder (p : Props) (env : Env) (signerAddress : Option Address) : SellOrderArgs :=
  { exchange := "0x5206e78b21ce315ce284fb24cf05e0585a93b1d9"
    maker := signerAddress
    target := p.collection
    tokenId := p.tokenId
    paymentToken := AddressZero
    basePrice := 10 ^ 16
    fee := 0
    feeRecipient := signerAddress
    listingTime := ((env.now / 1000 : Nat) : Int) - 120
    expirationTime := 0
    salt := env.salt % 2 ^ 256 }

/-- The call `setStep3(v)`; no effect depends on `step3`. -/
def setStep3 (v : Step) (s : Modal) : Modal := { s with step3 := v }

/-- The function `executeStep3` up to its first `await`: it marks the step pending,
builds the order (the builder is taken to return it) and asks the signer to sign it. -/
def executeStep3 (p : Props) (env : Env) (s : Modal) : Modal :=
  let order := sellOrder p env s.signerAddress
  setStep3 { s.step3 with pending := some true }
    { s with log := s.log ++ [.executeStep3, .sign order], tasks := s.tasks ++ [.sign order] }

/-- The call `setStep2(v)` and the effect on `[step2]` of the render that follows:
`if (step2.success) executeStep3()`. -/
def setStep2 (p : Props) (env : Env) (v : Step) (s : Modal) : Modal :=
  let s := { s with step2 := v }
  if s.step2.success = some true then executeStep3 p env s else s

/-- The function `executeStep2` up to its first `await`. -/
def executeStep2 (p : Props) (env : Env) (s : Modal) : Modal :=
  setStep2 p env { s.step2 with pending := some true }
    { s with
      log := s.log ++ [.executeStep2, .isApprovedForAll s.signerAddress s.userProxy]
      tasks := s.tasks ++ [.isApprovedForAll s.step2 s.signerAddress s.userProxy] }

/-- The call `setStep1(v)` and the effect on `[step1]` of the render that follows:
`if (step1.success) executeStep2()`. -/
def setStep1 (p : Props) (env : Env) (v : Step) (s : Modal) : Modal :=
  let s := { s with step1 := v }
  if s.step1.success = some true then executeStep2 p env s else s

/-- The function `executeStep1` up to its first `await`. -/
def executeStep1 (p : Props) (env : Env) (s : Modal) : Modal :=
  setStep1 p env { s.step1 with pending := some true }
    { s with
      log := s.log ++ [.executeStep1, .ownerOf p.tokenId]
      tasks := s.tasks ++ [.ownerOf s.step1 s.signerAddress] }

/-- The body of the effect on `[initialized, isOpen]`. -/
def effectStep1 (p : Props) (env : Env) (s : Modal) : Modal :=
  if s.initialized = true ∧ s.isOpen = true then
    if s.step1.success = some true then s else executeStep1 p env s
  else s

/-- The `catch` block of `executeStep1`. -/
def catchStep1 (p : Props) (env : Env) (s : Modal) : Modal :=
  setStep1 p env
    { pending := some false, error := some "Could not check/register user proxy",
      success := some false, tx := none } s

/-- The `catch` block of `executeStep2`. -/
def catchStep2 (p : Props) (env : Env) (s : Modal) : Modal :=
  setStep2 p env
    { error := some "Could not check/set approval", success := some false, tx := none,
      pending := some false } s

/-- The `catch` block of `executeStep3`. -/
def catchStep3 (s : Modal) : Modal :=
  setStep3
    { pending := some false, error := some "Could not build/sign the sell order",
      success := some false, tx := none } s

/-- The replies a call can settle with: a rejection, or a value of its return type. -/
def Task.accepts : Task → Reply → Bool
  | _, .fail => true
  | .ownerOf _ _, .address _ => true
  | .getAddress _ _, .address _ => true
  | .proxies _ _, .address _ => true
  | .registerProxy _ _, .tx _ => true
  | .waitRegister _ _, .done => true
  | .proxiesAgain _, .address _ => true
  | .isApprovedForAll _ _ _, .bool _ => true
  | .getApproved _ _ _, .address _ => true
  | .setApprovalForAll _, .tx _ => true
  | .waitApproval _, .done => true
  | .sign _, .done => true
  | .post, .done => true
  | _, _ => false

/-- The continuation of a suspended step function, run in the state `s` from which the
task has been removed. A rejection inside the `try` block runs the `catch` block; a
rejection of a chain that was not returned to the `await` is handled by nobody. -/
def resume (p : Props) (env : Env) (s : Modal) : Task → Reply → Modal
  | .ownerOf step1 signerAddress, r =>
    match r with
    | .address owner =>
      match signerAddress with
      | none => catchStep1 p env s
      | some signerAddress =>
        if toLowerCase owner ≠ toLowerCase signerAddress then
          setStep1 p env
            { pending := some false, success := some false,
              error := some "Current user is not the owner of the listed token", tx := none } s
        else
          { s with
            log := s.log ++ [.getAddress]
            tasks := s.tasks ++ [.getAddress step1 (some signerAddress)] }
    | _ => catchStep1 p env s
  | .getAddress step1 signerAddress, r =>
    match r with
    | .address a =>
      { s with
        log := s.log ++ [.proxies (some a)]
        tasks := s.tasks ++ [.proxies step1 signerAddress] }
    | _ => catchStep1 p env s
  | .proxies step1 signerAddress, r =>
    match r with
    | .address userProxy =>
      if userProxy = AddressZero then
        { s with
          log := s.log ++ [.registerProxy]
          tasks := s.tasks ++ [.registerProxy step1 signerAddress] }
      else
        setStep1 p env { pending := some false, success := some true, error := none, tx := none }
          { s with userProxy := some userProxy }
    | _ => catchStep1 p env s
  | .registerProxy step1 signerAddress, r =>
    match r with
    | .tx hash =>
      setStep1 p env { step1 with tx := some (explorerLink hash) }
        { s with
          log := s.log ++ [.wait hash]
          tasks := s.tasks ++ [.waitRegister hash signerAddress] }
    | _ => catchStep1 p env s
  | .waitRegister hash signerAddress, r =>
    match r with
    | .done =>
      { s with
        log := s.log ++ [.proxies signerAddress]
        tasks := s.tasks ++ [.proxiesAgain hash] }
    | _ => s
  | .proxiesAgain hash, r =>
    match r with
    | .address userProxy =>
      setStep1 p env
        { pending := some false, success := some true, error := none,
          tx := some (explorerLink hash) }
        { s with userProxy := some userProxy }
    | _ => s
  | .isApprovedForAll step2 signerAddress userProxy, r =>
    match r with
    | .bool isApproved =>
      if isApproved = true then
        setStep2 p env { pending := some false, success := some true, error := none, tx := none } s
      else
        { s with
          log := s.log ++ [.getApproved p.tokenId]
          tasks := s.tasks ++ [.getApproved step2 signerAddress userProxy] }
    | _ => catchStep2 p env s
  | .getApproved step2 signerAddress userProxy, r =>
    match r with
    | .address approved =>
      match signerAddress with
      | none => catchStep2 p env s
      | some signerAddress =>
        if toLowerCase approved = toLowerCase signerAddress then
          setStep2 p env
            { pending := some false, success := some true, error := none, tx := none } s
        else
          { s with
            log := s.log ++ [.setApprovalForAll userProxy]
            tasks := s.tasks ++ [.setApprovalForAll step2] }
    | _ => catchStep2 p env s
  | .setApprovalForAll step2, r =>
    match r with
    | .tx hash =>
      setStep2 p env { step2 with tx := some (explorerLink hash) }
        { s with
          log := s.log ++ [.wait hash]
          tasks := s.tasks ++ [.waitApproval hash] }
    | _ => catchStep2 p env s
  | .waitApproval hash, r =>
    match r with
    | .done =>
      setStep2 p env
        { pending := some false, success := some true, error := none,
          tx := some (explorerLink hash) } s
    | _ => s
  | .sign order, r =>
    match r with
    | .done => { s with log := s.log ++ [.post order], tasks := s.tasks ++ [.post] }
    | _ => catchStep3 s
  | .post, r =>
    match r with
    | .done =>
      setStep3 { pending := some false, success := some true, error := none, tx := none } s
    | _ => catchStep3 s

/-- An event of the component: the initialisation effect completes with the signer's
address, the user opens or closes the modal, or the call of the `i`-th suspended
function settles. -/
inductive Event where
  | initialized (signerAddress : Address)
  | openModal
  | closeModal
  | deliver (i : Nat) (r : Reply)

/-- One event of the component. A `setIsOpen` or `setInitialized` with the value already
held causes no render; a reply the call cannot settle with is no event. -/
def step (p : Props) (env : Env) (s : Modal) : Event → Modal
  | .initialized a =>
    if s.initialized = true then s
    else effectStep1 p env { s with signerAddress := some a, initialized := true }
  | .openModal =>
    if s.isOpen = true then s else effectStep1 p env { s with isOpen := true }
  | .closeModal =>
    if s.isOpen = true then effectStep1 p env { s with isOpen := false } else s
  | .deliver i r =>
    match s.tasks[i]? with
    | none => s
    | some t =>
      if t.accepts r = true then resume p env { s with tasks := s.tasks.eraseIdx i } t r else s

/-- The events of a list, in order, each with what the environment supplies. -/
def run (p : Props) (s : Modal) (es : List (Env × Event)) : Modal :=
  es.foldl (fun s x => step p x.1 s x.2) s

/-- The states the component reaches from its first render through events that all
satisfy `ok`. -/
inductive Reach (p : Props) (ok : Env → Modal → Event → Prop) : Modal → Prop where
  | mount : Reach p ok Modal.mount
  | step {s : Modal} (env : Env) (e : Event) :
      Reach p ok s → ok env s e → Reach p ok (step p env s e)

/-- No restriction on the events. -/
def AnyEvent (_ : Env) (_ : Modal) (_ : Event) : Prop := True

/-- The stage a suspended function belongs to. -/
def Task.stage : Task → Nat
  | .ownerOf _ _ => 1
  | .getAddress _ _ => 1
  | .proxies _ _ => 1
  | .registerProxy _ _ => 1
  | .waitRegister _ _ => 1
  | .proxiesAgain _ => 1
  | .isApprovedForAll _ _ _ => 2
  | .getApproved _ _ _ => 2
  | .setApprovalForAll _ => 2
  | .waitApproval _ => 2
  | .sign _ => 3
  | .post => 3

/-- Stage `n` has an asynchronous operation outstanding. -/
def Modal.outstanding (s : Modal) (n : Nat) : Prop := ∃ t ∈ s.tasks, t.stage = n

/-- The event does not start `executeStep1` while an operation of the flow is still
outstanding. -/
def NoOverlap (p : Props) (env : Env) (s : Modal) (e : Event) : Prop :=
  (step p env s e).log.count .executeStep1 ≠ s.log.count .executeStep1 → s.tasks = []

/-- Every owner the event delivers as the result of `ownerOf` differs, lower-cased, from
the signer address the waiting `executeStep1` captured. -/
def OwnerDiffers (_ : Env) (s : Modal) (e : Event) : Prop :=
  ∀ (i : Nat) (owner : Address) (c : Step) (a : Address),
    e = .deliver i (.address owner) → s.tasks[i]? = some (.ownerOf c (some a)) →
      toLowerCase owner ≠ toLowerCase a

/-- What holds of the state while the task is the only one outstanding. -/
def Task.inv (s : Modal) : Task → Prop
  | .ownerOf c _ | .getAddress c _ | .proxies c _ | .registerProxy c _ =>
    s.step1.success ≠ some true ∧ c.success ≠ some true ∧ c.pending ≠ some true ∧
    s.step2 = initStep ∧ s.step3 = initStep
  | .waitRegister _ _ | .proxiesAgain _ =>
    s.step1.success ≠ some true ∧ s.step1.pending ≠ some true ∧
    s.step2 = initStep ∧ s.step3 = initStep
  | .isApprovedForAll c _ _ | .getApproved c _ _ | .setApprovalForAll c =>
    s.step1.pending ≠ some true ∧ s.step1.success = some true ∧ s.step2.success = none ∧
    c = initStep ∧ s.step3 = initStep
  | .waitApproval _ =>
    s.step1.pending ≠ some true ∧ s.step1.success = some true ∧ s.step2.success = none ∧
    s.step2.pending ≠ some true ∧ s.step3 = initStep
  | .sign _ | .post =>
    s.step1.pending ≠ some true ∧ s.step2.pending ≠ some true ∧
    s.step1.success = some true ∧ s.step2.success = some true ∧ s.step3.success = none

/-- The invariant of the flows in which stage 1 is never started while an operation is
outstanding. -/
def SeqInv (s : Modal) : Prop :=
  match s.tasks with
  | [] =>
    s.step1.pending ≠ some true ∧ s.step2.pending ≠ some true ∧ s.step3.pending ≠ some true ∧
    (s.step1.success ≠ some true → s.step2 = initStep ∧ s.step3 = initStep) ∧
    (s.step2.success ≠ some true → s.step3 = initStep)
  | [t] => t.inv s
  | _ => False

/-- The invariant of the flows in which no `ownerOf` reply matches the signer: stage 1
has not succeeded, stages 2 and 3 are untouched, only `ownerOf` calls are outstanding and
the history holds nothing but `executeStep1` and its `ownerOf` call. -/
def NotOwnerInv (p : Props) (s : Modal) : Prop :=
  s.step1.success ≠ some true ∧ s.step2 = initStep ∧ s.step3 = initStep ∧
  s.userProxy = none ∧ (∀ t ∈ s.tasks, ∃ c a, t = Task.ownerOf c a) ∧
  (∀ call ∈ s.log, call = Call.executeStep1 ∨ call = Call.ownerOf p.tokenId)

/-- The record `executeStep1` sets when the signer is not the owner. -/
def notOwnerStep : Step :=
  { pending := some false, success := some false,
    error := some "Current user is not the owner of the listed token", tx := none }

/-- Example props. -/
def exampleProps : Props := { collection := "0xc0", tokenId := 42 }

/-- Example clock and salt. -/
def exampleEnv : Env := { now := 1000000, salt := 7 }

/-- The modal of signer `0x1`, initialised and opened: `executeStep1` awaits `ownerOf`. -/
def exampleOpened : Modal :=
  run exampleProps Modal.mount
    [(exampleEnv, .initialized "0x1"), (exampleEnv, .openModal)]

/-- The same flow after `ownerOf` returned the signer and `getAddress` resolved:
`executeStep1` awaits the first `proxies` lookup. -/
def exampleLookup : Modal :=
  run exampleProps exampleOpened
    [(exampleEnv, .deliver 0 (.address "0x1")), (exampleEnv, .deliver 0 (.address "0x1"))]

/-- The flow in which the registration transaction `0xh` is mined and the second
`proxies` lookup returns the zero address. -/
def exampleZeroProxy : Modal :=
  run exampleProps exampleLookup
    [(exampleEnv, .deliver 0 (.address AddressZero)), (exampleEnv, .deliver 0 (.tx "0xh")),
     (exampleEnv, .deliver 0 .done), (exampleEnv, .deliver 0 (.address AddressZero))]

/-- The flow in which the registration transaction `0xh` is submitted and its
`tx.wait()` rejects. -/
def exampleWaitRejects : Modal :=
  run exampleProps exampleLookup
    [(exampleEnv, .deliver 0 (.address AddressZero)), (exampleEnv, .deliver 0 (.tx "0xh")),
     (exampleEnv, .deliver 0 .fail)]

/-- The flow in which the registration transaction is mined and the `proxies` lookup
that follows rejects. -/
def exampleLookupRejects : Modal :=
  run exampleProps exampleLookup
    [(exampleEnv, .deliver 0 (.address AddressZero)), (exampleEnv, .deliver 0 (.tx "0xh")),
     (exampleEnv, .deliver 0 .done), (exampleEnv, .deliver 0 .fail)]

/-- The flow in which the proxy `0x77` exists, the token is not approved, the approval
transaction `0xk` is submitted and its `wait()` rejects. -/
def exampleApprovalWaitRejects : Modal :=
  run exampleProps exampleLookup
    [(exampleEnv, .deliver 0 (.address "0x77")), (exampleEnv, .deliver 0 (.bool false)),
     (exampleEnv, .deliver 0 (.address "0x99")), (exampleEnv, .deliver 0 (.tx "0xk")),
     (exampleEnv, .deliver 0 .fail)]

/-- The flow in which `ownerOf` rejects, so that stage 1 fails. -/
def exampleFailed : Modal :=
  run exampleProps exampleOpened [(exampleEnv, .deliver 0 .fail)]

/-- The failed flow after the user closed the modal and opened it again. -/
def exampleReopened : Modal :=
  run exampleProps exampleFailed [(exampleEnv, .closeModal), (exampleEnv, .openModal)]

/-- A flow in which the user closes and reopens the modal while the first run of
`executeStep1` still awaits `ownerOf`: a second run starts and captures `step1` with
`pending` true. The first run then fails; the second registers a proxy with transaction
`0xh`, whose `tx.wait()` rejects. -/
def exampleOverlap : Modal :=
  run exampleProps exampleOpened
    [(exampleEnv, .closeModal), (exampleEnv, .openModal), (exampleEnv, .deliver 0 .fail),
     (exampleEnv, .deliver 0 (.address "0x1")), (exampleEnv, .deliver 0 (.address "0x1")),
     (exampleEnv, .deliver 0 (.address AddressZero)), (exampleEnv, .deliver 0 (.tx "0xh")),
     (exampleEnv, .deliver 0 .fail)]

/-- The reopened flow in which stage 1 now succeeds with the proxy `0x77`. -/
def exampleRetried : Modal :=
  run exampleProps exampleReopened
    [(exampleEnv, .deliver 0 (.address "0x1")), (exampleEnv, .deliver 0 (.address "0x1")),
     (exampleEnv, .deliver 0 (.address "0x77"))]

/-- A flow whose signer reports the zero address, for a token whose `ownerOf` is the zero
address: the proxy `0x…77` exists and is approved, the order is signed and posted. -/
def exampleZeroSigner : Modal :=
  run exampleProps Modal.mount
    [(exampleEnv, .initialized AddressZero), (exampleEnv, .openModal),
     (exampleEnv, .deliver 0 (.address AddressZero)),
     (exampleEnv, .deliver 0 (.address AddressZero)),
     (exampleEnv, .deliver 0 (.address "0x0000000000000000000000000000000000000077")),
     (exampleEnv, .deliver 0 (.bool true)), (exampleEnv, .deliver 0 .done),
     (exampleEnv, .deliver 0 .done)]

/-- The invariant behind the sell order: nothing runs before the initialisation, the
signer address is known after it, and every order handed to the signer has it as maker
and fee recipient, with fee 0. -/
def SignerInv (s : Modal) : Prop :=
  (s.initialized = false → s.tasks = [] ∧ s.log = []) ∧
  (s.initialized = true → ∃ a, s.signerAddress = some a) ∧
  (∀ o, Call.sign o ∈ s.log →
    o.maker = s.signerAddress ∧ o.feeRecipient = s.signerAddress ∧ o.fee = 0)

end ListingModal

namespace Utils

theorem roundHalfEven_le {t : ℚ} {z : ℤ} (h : t ≤ z) : roundHalfEven t ≤ z := by
  have hfl : ⌊t⌋ ≤ z := Int.floor_le_iff.mpr (lt_of_le_of_lt h (by exact_mod_cast Int.lt_succ z))
  have hup : ¬ (t - ⌊t⌋ < 1 / 2) → ⌊t⌋ + 1 ≤ z := by
    intro hfrac
    have h1 : (⌊t⌋ : ℚ) < t := by linarith
    have h2 : (⌊t⌋ : ℚ) < z := lt_of_lt_of_le h1 h
    have h3 : ⌊t⌋ < z := by exact_mod_cast h2
    omega
  unfold roundHalfEven
  split_ifs with h1 h2 h3
  · exact hfl
  · exact hup h1
  · exact hfl
  · exact hup h1

theorem le_roundHalfEven {t : ℚ} {z : ℤ} (h : (z : ℚ) ≤ t) : z ≤ roundHalfEven t := by
  have hfl : z ≤ ⌊t⌋ := Int.le_floor.mpr h
  unfold roundHalfEven
  split_ifs <;> omega

theorem isDouble_nonneg {d : ℚ} (hd : IsDouble d) : 0 ≤ d := by
  obtain ⟨m, e, _, _, _, rfl⟩ := hd
  positivity

theorem isDouble_lt {d : ℚ} (hd : IsDouble d) : d < 2 ^ 1024 := by
  obtain ⟨m, e, hm, _, he, rfl⟩ := hd
  have h1 : (m : ℚ) < 2 ^ 53 := by exact_mod_cast hm
  have h2 : (2 : ℚ) ^ e ≤ 2 ^ (971 : ℤ) := zpow_le_zpow_right₀ (by norm_num) he
  have h3 : (0 : ℚ) < 2 ^ e := by positivity
  calc (m : ℚ) * 2 ^ e < 2 ^ 53 * 2 ^ e := by nlinarith
    _ ≤ 2 ^ 53 * 2 ^ (971 : ℤ) := by nlinarith
    _ = 2 ^ 1024 := by norm_num [zpow_ofNat]

theorem roundHalfEven_zero : roundHalfEven 0 = 0 :=
  le_antisymm (roundHalfEven_le (by simp)) (le_roundHalfEven (by simp))

theorem roundMagnitude_zero : roundMagnitude 0 = 0 := by
  simp [roundMagnitude, roundHalfEven_zero]

theorem ulp_cases (x : ℚ) :
    ulpExponent x = -1074 ∨ (ulpExponent x = Int.log 2 x - 52 ∧ -1074 < ulpExponent x) := by
  unfold ulpExponent
  rcases le_total (Int.log 2 x - 52) (-1074) with h | h
  · left; exact max_eq_right h
  · rcases eq_or_lt_of_le h with h' | h'
    · left; rw [← h']; simp
    · right; rw [max_eq_left h]; exact ⟨rfl, h'⟩

theorem roundMagnitude_le {x d : ℚ} (hx : 0 ≤ x) (hd : IsDouble d) (h : x ≤ d) :
    roundMagnitude x ≤ d := by
  rcases eq_or_lt_of_le hx with h0 | hpos
  · rw [← h0, roundMagnitude_zero]; exact isDouble_nonneg hd
  obtain ⟨m, e, hm, he1, he2, rfl⟩ := hd
  have hu : (0 : ℚ) < 2 ^ ulpExponent x := by positivity
  rcases le_or_lt (ulpExponent x) e with hle | hlt
  · -- the double is a multiple of the unit in the last place of `x`
    obtain ⟨k, hk⟩ := Int.eq_ofNat_of_zero_le (sub_nonneg.mpr hle)
    have he : e = ulpExponent x + k := by omega
    have hz : (m : ℚ) * 2 ^ e = ((m * 2 ^ k : ℕ) : ℤ) * 2 ^ ulpExponent x := by
      rw [he, zpow_add₀ (by norm_num), zpow_natCast]
      push_cast
      ring
    have ht : x / 2 ^ ulpExponent x ≤ ((m * 2 ^ k : ℕ) : ℤ) := by
      rw [div_le_iff₀ hu, ← hz]
      exact h
    have hr := roundHalfEven_le ht
    have hr' : (roundHalfEven (x / 2 ^ ulpExponent x) : ℚ) ≤ ((m * 2 ^ k : ℕ) : ℤ) := by
      exact_mod_cast hr
    rw [hz]
    unfold roundMagnitude
    exact mul_le_mul_of_nonneg_right hr' hu.le
  · -- a double with a smaller exponent lies below the binade of `x`
    exfalso
    rcases ulp_cases x with h1 | ⟨h1, _⟩
    · omega
    · have hlog : (2 : ℚ) ^ Int.log 2 x ≤ x := by
        have := Int.zpow_log_le_self (b := 2) (by norm_num) hpos
        simpa using this
      have hm' : (m : ℚ) < 2 ^ 53 := by exact_mod_cast hm
      have he' : (2 : ℚ) ^ e ≤ 2 ^ (ulpExponent x - 1) := zpow_le_zpow_right₀ (by norm_num) (by omega)
      have hpe : (0 : ℚ) < 2 ^ e := by positivity
      have hsplit : (2 : ℚ) ^ Int.log 2 x = 2 ^ 53 * 2 ^ (ulpExponent x - 1) := by
        have : Int.log 2 x = 53 + (ulpExponent x - 1) := by omega
        rw [this, zpow_add₀ (by norm_num)]
        norm_num [zpow_ofNat]
      have : (m : ℚ) * 2 ^ e < 2 ^ Int.log 2 x := by
        rw [hsplit]
        calc (m : ℚ) * 2 ^ e < 2 ^ 53 * 2 ^ e := by nlinarith
          _ ≤ 2 ^ 53 * 2 ^ (ulpExponent x - 1) := by nlinarith
      linarith

theorem le_roundMagnitude {x d : ℚ} (hx : 0 ≤ x) (hd : IsDouble d) (h : d ≤ x) :
    d ≤ roundMagnitude x := by
  rcases eq_or_lt_of_le hx with h0 | hpos
  · rw [← h0, roundMagnitude_zero]; rw [← h0] at h; exact h
  obtain ⟨m, e, hm, he1, he2, rfl⟩ := hd
  have hu : (0 : ℚ) < 2 ^ ulpExponent x := by positivity
  rcases le_or_lt (ulpExponent x) e with hle | hlt
  · obtain ⟨k, hk⟩ := Int.eq_ofNat_of_zero_le (sub_nonneg.mpr hle)
    have he : e = ulpExponent x + k := by omega
    have hz : (m : ℚ) * 2 ^ e = ((m * 2 ^ k : ℕ) : ℤ) * 2 ^ ulpExponent x := by
      rw [he, zpow_add₀ (by norm_num), zpow_natCast]
      push_cast
      ring
    have ht : (((m * 2 ^ k : ℕ) : ℤ) : ℚ) ≤ x / 2 ^ ulpExponent x := by
      rw [le_div_iff₀ hu, ← hz]
      exact h
    have hr := le_roundHalfEven ht
    have hr' : (((m * 2 ^ k : ℕ) : ℤ) : ℚ) ≤ (roundHalfEven (x / 2 ^ ulpExponent x) : ℚ) := by
      exact_mod_cast hr
    rw [hz]
    unfold roundMagnitude
    exact mul_le_mul_of_nonneg_right hr' hu.le
  · rcases ulp_cases x with h1 | ⟨h1, _⟩
    · omega
    · have hlog : (2 : ℚ) ^ Int.log 2 x ≤ x := by
        have := Int.zpow_log_le_self (b := 2) (by norm_num) hpos
        simpa using this
      have hm' : (m : ℚ) < 2 ^ 53 := by exact_mod_cast hm
      have he' : (2 : ℚ) ^ e ≤ 2 ^ (ulpExponent x - 1) := zpow_le_zpow_right₀ (by norm_num) (by omega)
      have hpe : (0 : ℚ) < 2 ^ e := by positivity
      have hsplit : (2 : ℚ) ^ Int.log 2 x = 2 ^ 52 * 2 ^ ulpExponent x := by
        have : Int.log 2 x = 52 + ulpExponent x := by omega
        rw [this, zpow_add₀ (by norm_num)]
        norm_num [zpow_ofNat]
      have hstep : (2 : ℚ) ^ 53 * 2 ^ (ulpExponent x - 1) = 2 ^ 52 * 2 ^ ulpExponent x := by
        rw [zpow_sub₀ (by norm_num)]
        norm_num
        ring
      have hcast : (((2 ^ 52 : ℕ) : ℤ) : ℚ) = 2 ^ 52 := by norm_num
      have ht : (((2 ^ 52 : ℕ) : ℤ) : ℚ) ≤ x / 2 ^ ulpExponent x := by
        rw [le_div_iff₀ hu, hcast, ← hsplit]
        exact hlog
      have hr := le_roundHalfEven ht
      have hr' : (((2 ^ 52 : ℕ) : ℤ) : ℚ) ≤ (roundHalfEven (x / 2 ^ ulpExponent x) : ℚ) := by
        exact_mod_cast hr
      have hbig : (2 : ℚ) ^ 52 * 2 ^ ulpExponent x ≤ roundMagnitude x := by
        unfold roundMagnitude
        have := mul_le_mul_of_nonneg_right hr' hu.le
        rw [hcast] at this
        exact this
      calc (m : ℚ) * 2 ^ e ≤ 2 ^ 53 * 2 ^ e := by nlinarith
        _ ≤ 2 ^ 53 * 2 ^ (ulpExponent x - 1) := by nlinarith
        _ = 2 ^ 52 * 2 ^ ulpExponent x := hstep
        _ ≤ roundMagnitude x := hbig

theorem isDouble_zero : IsDouble 0 := ⟨0, 0, by norm_num, by norm_num, by norm_num, by simp⟩

theorem roundDouble_of_le {x D : ℚ} (hx : 0 ≤ x) (hD : IsDouble D) (h : x ≤ D) :
    roundDouble x = .fin (roundMagnitude x) ∧ 0 ≤ roundMagnitude x ∧ roundMagnitude x ≤ D := by
  have h1 := roundMagnitude_le hx hD h
  have h2 := le_roundMagnitude hx isDouble_zero hx
  have h3 : ¬ (2 : ℚ) ^ 1024 ≤ roundMagnitude x := not_le.mpr (lt_of_le_of_lt h1 (isDouble_lt hD))
  exact ⟨by simp [roundDouble, hx, h3], h2, h1⟩

theorem isDouble_two_pow (k : ℕ) (hk : k ≤ 1023) : IsDouble (2 ^ k) := by
  refine ⟨2 ^ 52, (k : ℤ) - 52, by norm_num, by omega, by omega, ?_⟩
  rw [zpow_sub₀ (by norm_num), zpow_natCast]
  push_cast
  field_simp
  norm_num
  ring

theorem abbreviateLoop_exit (fuel : ℕ) (y : ℚ) (acc : ℕ) (h : y < 1000) :
    abbreviateLoop (fuel + 1) (.fin y) acc = some (.fin y, acc) := by
  simp [abbreviateLoop, JSNum.ge1000, not_le.mpr h]

theorem abbreviateLoop_step (fuel : ℕ) (y D : ℚ) (acc : ℕ) (h : 1000 ≤ y) (hD : IsDouble D)
    (hyD : y / 1000 ≤ D) :
    abbreviateLoop (fuel + 1) (.fin y) acc =
      abbreviateLoop fuel (.fin (roundMagnitude (y / 1000))) (acc + 1) := by
  have hy : (0 : ℚ) ≤ y / 1000 := by positivity
  simp [abbreviateLoop, JSNum.ge1000, h, JSNum.div1000, (roundDouble_of_le hy hD hyD).1]

theorem abbreviateLoop_index_ge (fuel : ℕ) : ∀ (v : JSNum) (acc : ℕ) (r : JSNum) (m : ℕ),
    abbreviateLoop fuel v acc = some (r, m) → acc ≤ m := by
  induction fuel with
  | zero => intro v acc r m h; simp [abbreviateLoop] at h
  | succ f ih =>
    intro v acc r m h
    simp only [abbreviateLoop] at h
    split_ifs at h
    · have := ih _ _ _ _ h
      omega
    · simp only [Option.some.injEq, Prod.mk.injEq] at h
      omega

theorem abbreviateLoop_terminates (N : ℕ) : ∀ y : ℚ, 0 ≤ y → y ≤ 2 ^ N → N ≤ 1024 →
    ∃ (n : ℕ) (v : ℚ), ∀ fuel : ℕ, N + 1 ≤ fuel → ∀ acc : ℕ,
      abbreviateLoop fuel (.fin y) acc = some (.fin v, acc + n) := by
  induction N using Nat.strong_induction_on with
  | _ N ih =>
    intro y hy hyN hN
    by_cases h : 1000 ≤ y
    · have hN10 : 10 ≤ N := by
        by_contra hc
        have h9 : N ≤ 9 := by omega
        have : (2 : ℚ) ^ N ≤ 2 ^ 9 := pow_le_pow_right₀ (by norm_num) h9
        norm_num at this
        linarith
      have hD : IsDouble (2 ^ (N - 9)) := isDouble_two_pow (N - 9) (by omega)
      have hdiv : y / 1000 ≤ 2 ^ (N - 9) := by
        have hsplit : (2 : ℚ) ^ N = 2 ^ (N - 9) * 2 ^ 9 := by
          rw [← pow_add]
          congr 1
          omega
        have hp : (0 : ℚ) < 2 ^ (N - 9) := by positivity
        rw [div_le_iff₀ (by norm_num)]
        rw [hsplit] at hyN
        nlinarith
      have hy' : (0 : ℚ) ≤ y / 1000 := by positivity
      obtain ⟨_, h0, hle⟩ := roundDouble_of_le hy' hD hdiv
      obtain ⟨n, v, hrun⟩ := ih (N - 9) (by omega) _ h0 hle (by omega)
      refine ⟨n + 1, v, ?_⟩
      intro fuel hf acc
      obtain ⟨f, rfl⟩ : ∃ f, fuel = f + 1 := ⟨fuel - 1, by omega⟩
      rw [abbreviateLoop_step f y _ acc h hD hdiv, hrun f (by omega) (acc + 1)]
      simp [Nat.add_assoc, Nat.add_comm 1 n]
    · refine ⟨0, y, ?_⟩
      intro fuel hf acc
      obtain ⟨f, rfl⟩ : ∃ f, fuel = f + 1 := ⟨fuel - 1, by omega⟩
      rw [abbreviateLoop_exit f y acc (not_le.mp h)]
      simp

theorem isDouble_pow1000 (k : ℕ) (hk : k ≤ 7) : IsDouble (1000 ^ k) := by
  refine ⟨5 ^ (3 * k), ((3 * k : ℕ) : ℤ), ?_, by omega, by omega, ?_⟩
  · calc 5 ^ (3 * k) ≤ 5 ^ (3 * 7) := Nat.pow_le_pow_right (by norm_num) (by omega)
      _ < 2 ^ 53 := by norm_num
  · rw [zpow_natCast]
    push_cast
    rw [← mul_pow, pow_mul]
    norm_num

theorem abbreviateLoop_index_lower (k : ℕ) : k ≤ 7 → ∀ y : ℚ, 1000 ^ k ≤ y → y ≤ 2 ^ 1024 →
    ∀ (fuel acc : ℕ) (r : JSNum) (m : ℕ),
      abbreviateLoop fuel (.fin y) acc = some (r, m) → acc + k ≤ m := by
  induction k with
  | zero =>
    intro _ y _ _ fuel acc r m h
    exact abbreviateLoop_index_ge fuel _ acc r m h
  | succ k ih =>
    intro hk y hy hyN fuel acc r m h
    have hk1 : (1000 : ℚ) ^ k ≥ 1 := one_le_pow₀ (by norm_num)
    have h1000 : (1000 : ℚ) ≤ y := by
      have : (1000 : ℚ) ^ (k + 1) = 1000 ^ k * 1000 := pow_succ _ _
      nlinarith
    have hD : IsDouble (2 ^ 1015) := isDouble_two_pow 1015 (by norm_num)
    have hdiv : y / 1000 ≤ 2 ^ 1015 := by
      rw [div_le_iff₀ (by norm_num)]
      have h1024 : (2 : ℚ) ^ 1024 = 2 ^ 1015 * 512 := by
        rw [show (1024 : ℕ) = 1015 + 9 from rfl, pow_add]
        norm_num
      have hp : (0 : ℚ) < 2 ^ 1015 := pow_pos (by norm_num) _
      rw [h1024] at hyN
      generalize (2 : ℚ) ^ 1015 = P at hyN hp ⊢
      nlinarith
    have hy' : (0 : ℚ) ≤ y / 1000 := div_nonneg (by linarith) (by norm_num)
    cases fuel with
    | zero => simp [abbreviateLoop] at h
    | succ f =>
      rw [abbreviateLoop_step f y _ acc h1000 hD hdiv] at h
      have hlow : (1000 : ℚ) ^ k ≤ roundMagnitude (y / 1000) := by
        apply le_roundMagnitude hy' (isDouble_pow1000 k (by omega))
        rw [le_div_iff₀ (by norm_num)]
        rw [pow_succ] at hy
        exact hy
      have hup : roundMagnitude (y / 1000) ≤ 2 ^ 1024 :=
        le_trans (roundMagnitude_le hy' hD hdiv)
          (pow_le_pow_right₀ (by norm_num) (by norm_num))
      have := ih (by omega) _ hlow hup f (acc + 1) r m h
      omega

theorem double_le_pred {m : ℕ} {e a : ℤ} {N : ℕ} (hm : m < 2 ^ 53)
    (h : (m : ℚ) * 2 ^ e < N * 2 ^ a)
    (hlow : (2 : ℚ) ^ 53 * 2 ^ (a - 1) ≤ ((N : ℚ) - 1) * 2 ^ a) :
    (m : ℚ) * 2 ^ e ≤ ((N : ℚ) - 1) * 2 ^ a := by
  have hpa : (0 : ℚ) < 2 ^ a := by positivity
  rcases le_or_lt a e with hle | hlt
  · obtain ⟨j, hj⟩ := Int.eq_ofNat_of_zero_le (sub_nonneg.mpr hle)
    have he : e = a + j := by omega
    have hz : (m : ℚ) * 2 ^ e = ((m * 2 ^ j : ℕ) : ℚ) * 2 ^ a := by
      rw [he, zpow_add₀ (by norm_num), zpow_natCast]
      push_cast
      ring
    rw [hz] at h ⊢
    have h1 : ((m * 2 ^ j : ℕ) : ℚ) < N := lt_of_mul_lt_mul_right h hpa.le
    have h2 : m * 2 ^ j < N := by exact_mod_cast h1
    have h3 : m * 2 ^ j + 1 ≤ N := h2
    have h4 : ((m * 2 ^ j : ℕ) : ℚ) + 1 ≤ N := by exact_mod_cast h3
    have h5 : ((m * 2 ^ j : ℕ) : ℚ) ≤ (N : ℚ) - 1 := by linarith
    exact mul_le_mul_of_nonneg_right h5 hpa.le
  · have hm' : (m : ℚ) < 2 ^ 53 := by exact_mod_cast hm
    have he' : (2 : ℚ) ^ e ≤ 2 ^ (a - 1) := zpow_le_zpow_right₀ (by norm_num) (by omega)
    have hpe : (0 : ℚ) < 2 ^ e := by positivity
    calc (m : ℚ) * 2 ^ e ≤ 2 ^ 53 * 2 ^ e := by nlinarith
      _ ≤ 2 ^ 53 * 2 ^ (a - 1) := by nlinarith
      _ ≤ ((N : ℚ) - 1) * 2 ^ a := hlow

theorem isDouble_le_belowPow1000 {q : ℚ} (hd : IsDouble q) (k : ℕ) (hk1 : 1 ≤ k) (hk5 : k ≤ 5)
    (h : q < 1000 ^ k) : q ≤ belowPow1000 k := by
  obtain ⟨m, e, hm, _, _, rfl⟩ := hd
  interval_cases k
  · have := double_le_pred (a := -43) (N := 1000 * 2 ^ 43) hm
      (by norm_num at h ⊢; exact h) (by norm_num)
    norm_num [belowPow1000] at this ⊢
    linarith
  · have := double_le_pred (a := -33) (N := 1000 ^ 2 * 2 ^ 33) hm
      (by norm_num at h ⊢; exact h) (by norm_num)
    norm_num [belowPow1000] at this ⊢
    linarith
  · have := double_le_pred (a := -23) (N := 1000 ^ 3 * 2 ^ 23) hm
      (by norm_num at h ⊢; exact h) (by norm_num)
    norm_num [belowPow1000] at this ⊢
    linarith
  · have := double_le_pred (a := -13) (N := 1000 ^ 4 * 2 ^ 13) hm
      (by norm_num at h ⊢; exact h) (by norm_num)
    norm_num [belowPow1000] at this ⊢
    linarith
  · have := double_le_pred (a := -3) (N := 1000 ^ 5 * 2 ^ 3) hm
      (by norm_num at h ⊢; exact h) (by norm_num)
    norm_num [belowPow1000] at this ⊢
    linarith

theorem isDouble_belowPow1000 (k : ℕ) (hk1 : 1 ≤ k) (hk5 : k ≤ 5) :
    IsDouble (belowPow1000 k) := by
  interval_cases k
  · exact ⟨1000 * 2 ^ 43 - 1, -43, by norm_num, by norm_num, by norm_num,
      by norm_num [belowPow1000]⟩
  · exact ⟨1000 ^ 2 * 2 ^ 33 - 1, -33, by norm_num, by norm_num, by norm_num,
      by norm_num [belowPow1000]⟩
  · exact ⟨1000 ^ 3 * 2 ^ 23 - 1, -23, by norm_num, by norm_num, by norm_num,
      by norm_num [belowPow1000]⟩
  · exact ⟨1000 ^ 4 * 2 ^ 13 - 1, -13, by norm_num, by norm_num, by norm_num,
      by norm_num [belowPow1000]⟩
  · exact ⟨1000 ^ 5 * 2 ^ 3 - 1, -3, by norm_num, by norm_num, by norm_num,
      by norm_num [belowPow1000]⟩

theorem belowPow1000_div (k : ℕ) (hk1 : 1 ≤ k) (hk4 : k ≤ 4) :
    belowPow1000 (k + 1) / 1000 ≤ belowPow1000 k := by
  interval_cases k <;> norm_num [belowPow1000]

theorem belowPow1000_one_lt : belowPow1000 1 < 1000 := by
  norm_num [belowPow1000]

theorem abbreviateLoop_index_upper (k : ℕ) : 1 ≤ k → k ≤ 5 → ∀ y : ℚ, 0 ≤ y →
    y ≤ belowPow1000 k → ∀ (fuel acc : ℕ) (r : JSNum) (m : ℕ),
      abbreviateLoop fuel (.fin y) acc = some (r, m) → m < acc + k := by
  induction k with
  | zero => intro h; omega
  | succ k ih =>
    intro _ hk5 y hy hyP fuel acc r m h
    cases fuel with
    | zero => simp [abbreviateLoop] at h
    | succ f =>
      by_cases h1000 : 1000 ≤ y
      · have hk1 : 1 ≤ k := by
          by_contra hc
          have hk0 : k = 0 := by omega
          subst hk0
          have := belowPow1000_one_lt
          simp only [zero_add] at hyP
          linarith
        have hD := isDouble_belowPow1000 k hk1 (by omega)
        have hdiv : y / 1000 ≤ belowPow1000 k :=
          le_trans (div_le_div_of_nonneg_right hyP (by norm_num))
            (belowPow1000_div k hk1 (by omega))
        have hy' : (0 : ℚ) ≤ y / 1000 := div_nonneg hy (by norm_num)
        rw [abbreviateLoop_step f y _ acc h1000 hD hdiv] at h
        obtain ⟨_, h0, hle⟩ := roundDouble_of_le hy' hD hdiv
        have := ih hk1 (by omega) _ h0 hle f (acc + 1) r m h
        omega
      · rw [abbreviateLoop_exit f y acc (not_le.mp h1000)] at h
        simp only [Option.some.injEq, Prod.mk.injEq] at h
        omega

theorem roundHalfEven_eq {t : ℚ} {z : ℤ} (h1 : (z : ℚ) - 1 / 2 < t) (h2 : t < z + 1 / 2) :
    roundHalfEven t = z := by
  rcases le_or_lt (z : ℚ) t with hle | hlt
  · have hfl : ⌊t⌋ = z := Int.floor_eq_iff.mpr ⟨hle, by linarith⟩
    have hfrac : t - ⌊t⌋ < 1 / 2 := by rw [hfl]; linarith
    rw [roundHalfEven, if_pos hfrac, hfl]
  · have hfl : ⌊t⌋ = z - 1 := Int.floor_eq_iff.mpr ⟨by push_cast; linarith, by push_cast; linarith⟩
    have hfrac : 1 / 2 < t - ⌊t⌋ := by rw [hfl]; push_cast; linarith
    have hn : ¬ (t - ⌊t⌋ < 1 / 2) := not_lt.mpr hfrac.le
    rw [roundHalfEven, if_neg hn, if_pos hfrac, hfl]
    ring

theorem ulpExponent_eq {x : ℚ} {L : ℤ} (h1 : 2 ^ L ≤ x) (h2 : x < 2 ^ (L + 1))
    (hL : -1022 ≤ L) : ulpExponent x = L - 52 := by
  have hpos : 0 < x := lt_of_lt_of_le (by positivity) h1
  have hlog : Int.log 2 x = L := by
    apply le_antisymm
    · have := (Int.lt_zpow_iff_log_lt (b := 2) (by norm_num) hpos (x := L + 1)).mp
        (by exact_mod_cast h2)
      omega
    · exact (Int.zpow_le_iff_le_log (b := 2) (by norm_num) hpos).mp (by exact_mod_cast h1)
  rw [ulpExponent, hlog]
  exact max_eq_left (by omega)

theorem roundMagnitude_eq {x : ℚ} {L z : ℤ} (h1 : 2 ^ L ≤ x) (h2 : x < 2 ^ (L + 1))
    (hL : -1022 ≤ L) (hz1 : (z : ℚ) - 1 / 2 < x / 2 ^ (L - 52))
    (hz2 : x / 2 ^ (L - 52) < z + 1 / 2) : roundMagnitude x = z * 2 ^ (L - 52) := by
  rw [roundMagnitude, ulpExponent_eq h1 h2 hL, roundHalfEven_eq hz1 hz2]

/-- C10, amended. For every finite non-negative double `value` the loop of
`abbreviateNumber` terminates. For `value < 10^15` its final suffix index is the number of
times `value` can be divided by 1000 while staying at least 1. The index is within the
five-entry table exactly when `value < 10^15`, and the lookup `suffixes[index]` is
`undefined` exactly when `value >= 10^15`. -/
theorem abbreviateNumber_suffix_index (q : ℚ) (hd : IsDouble q) :
    ∃ (n fuel₀ : ℕ) (v : ℚ),
      (∀ fuel : ℕ, fuel₀ ≤ fuel → abbreviateLoop fuel (.fin q) 0 = some (.fin v, n)) ∧
      (q < 10 ^ 15 → ∀ k : ℕ, 1 ≤ k → (k ≤ n ↔ 1 ≤ q / 1000 ^ k)) ∧
      (n < suffixes.length ↔ q < 10 ^ 15) ∧
      (suffixLookup n = none ↔ 10 ^ 15 ≤ q) := by
  have hq0 := isDouble_nonneg hd
  have hq1 := (isDouble_lt hd).le
  obtain ⟨n, v, hrun⟩ := abbreviateLoop_terminates 1024 q hq0 hq1 (le_refl _)
  have hone := hrun 1025 (le_refl _) 0
  have hlower : ∀ k : ℕ, k ≤ 7 → (1000 : ℚ) ^ k ≤ q → k ≤ n := by
    intro k hk hkq
    have := abbreviateLoop_index_lower k hk q hkq hq1 1025 0 _ _ hone
    omega
  have hupper : ∀ k : ℕ, 1 ≤ k → k ≤ 5 → q < 1000 ^ k → n < k := by
    intro k hk1 hk5 hkq
    have := abbreviateLoop_index_upper k hk1 hk5 q hq0
      (isDouble_le_belowPow1000 hd k hk1 hk5 hkq) 1025 0 _ _ hone
    omega
  have h15 : (10 : ℚ) ^ 15 = 1000 ^ 5 := by norm_num
  have hlen : (n < suffixes.length ↔ q < 10 ^ 15) := by
    simp only [suffixes, List.length_cons, List.length_nil]
    constructor
    · intro hn
      by_contra hc
      have := hlower 5 (by norm_num) (by rw [← h15]; exact not_lt.mp hc)
      omega
    · intro hlt
      have := hupper 5 (by norm_num) (by norm_num) (by rw [← h15]; exact hlt)
      omega
  refine ⟨n, 1025, v, ?_, ?_, hlen, ?_⟩
  · intro fuel hf
    simpa using hrun fuel hf 0
  · intro hlt k hk
    have hn5 : n < 5 := by
      have := hlen.mpr hlt
      simpa [suffixes] using this
    have hpk : (0 : ℚ) < 1000 ^ k := by positivity
    rw [le_div_iff₀ hpk, one_mul]
    constructor
    · intro hkn
      by_contra hc
      have := hupper k hk (by omega) (not_le.mp hc)
      omega
    · intro hkq
      have hk5 : k < 5 := by
        by_contra hc
        have h5k : 5 ≤ k := by omega
        have : (1000 : ℚ) ^ 5 ≤ 1000 ^ k := pow_le_pow_right₀ (by norm_num) h5k
        rw [h15] at hlt
        linarith
      exact hlower k (by omega) hkq
  · rw [suffixLookup, List.getElem?_eq_none_iff, ← not_lt, ← not_lt, hlen]

theorem abbreviateNumber_suffix_index_example :
    IsDouble 1500000 ∧
    ∃ (n fuel₀ : ℕ) (v : ℚ),
      (∀ fuel : ℕ, fuel₀ ≤ fuel → abbreviateLoop fuel (.fin 1500000) 0 = some (.fin v, n)) ∧
      ((1500000 : ℚ) < 10 ^ 15 → ∀ k : ℕ, 1 ≤ k → (k ≤ n ↔ 1 ≤ (1500000 : ℚ) / 1000 ^ k)) ∧
      (n < suffixes.length ↔ (1500000 : ℚ) < 10 ^ 15) ∧
      (suffixLookup n = none ↔ (10 : ℚ) ^ 15 ≤ 1500000) :=
  ⟨⟨1500000, 0, by norm_num, by norm_num, by norm_num, by norm_num⟩,
    abbreviateNumber_suffix_index 1500000
      ⟨1500000, 0, by norm_num, by norm_num, by norm_num, by norm_num⟩⟩

theorem roundMagnitude_of_isDouble {x : ℚ} (hd : IsDouble x) : roundMagnitude x = x :=
  le_antisymm (roundMagnitude_le (isDouble_nonneg hd) hd (le_refl _))
    (le_roundMagnitude (isDouble_nonneg hd) hd (le_refl _))

theorem abbreviateLoop_pow1000 (k : ℕ) : k ≤ 7 → ∀ fuel acc : ℕ, k + 1 ≤ fuel →
    abbreviateLoop fuel (.fin (1000 ^ k)) acc = some (.fin 1, acc + k) := by
  induction k with
  | zero =>
    intro _ fuel acc hf
    obtain ⟨f, rfl⟩ : ∃ f, fuel = f + 1 := ⟨fuel - 1, by omega⟩
    simpa using abbreviateLoop_exit f 1 acc (by norm_num)
  | succ k ih =>
    intro hk fuel acc hf
    obtain ⟨f, rfl⟩ : ∃ f, fuel = f + 1 := ⟨fuel - 1, by omega⟩
    have hdiv : (1000 : ℚ) ^ (k + 1) / 1000 = 1000 ^ k := by
      rw [pow_succ]
      field_simp
    have hD := isDouble_pow1000 k (by omega)
    have h1000 : (1000 : ℚ) ≤ 1000 ^ (k + 1) := by
      have : (1 : ℚ) ≤ 1000 ^ k := one_le_pow₀ (by norm_num)
      rw [pow_succ]
      linarith
    rw [abbreviateLoop_step f _ (1000 ^ k) acc h1000 hD (by rw [hdiv]), hdiv,
      roundMagnitude_of_isDouble hD, ih (by omega) f (acc + 1) (by omega)]
    simp [Nat.add_assoc, Nat.add_comm 1 k]

theorem abbreviateLoop_posInf (fuel : Nat) :
    ∀ acc : Nat, abbreviateLoop fuel .posInf acc = none := by
  induction fuel with
  | zero => intro acc; rfl
  | succ f ih => intro acc; simp [abbreviateLoop, JSNum.ge1000, JSNum.div1000, ih]

/-- C10, counterexample. `Infinity` is a non-negative number and the loop of
`abbreviateNumber` never exits on it. The double `1e24`, which is
999999999999999983222784, can be divided by 1000 seven times while staying at least 1, and
the loop ends on it with suffix index 8, because the first division rounds up to `1e21`. -/
theorem abbreviateNumber_index_counterexamples :
    (JSNum.posInf.nonneg = true ∧
      ¬ ∃ fuel : ℕ, (abbreviateLoop fuel JSNum.posInf 0).isSome = true) ∧
    (IsDouble 999999999999999983222784 ∧
      (1 : ℚ) ≤ 999999999999999983222784 / 1000 ^ 7 ∧
      (999999999999999983222784 : ℚ) / 1000 ^ 8 < 1 ∧
      ∀ fuel : ℕ, 9 ≤ fuel →
        abbreviateLoop fuel (.fin 999999999999999983222784) 0 = some (.fin 1, 8)) := by
  have hd : IsDouble 999999999999999983222784 :=
    ⟨1862645149230957, 29, by norm_num, by norm_num, by norm_num, by norm_num⟩
  refine ⟨⟨rfl, ?_⟩, hd, by norm_num, by norm_num, ?_⟩
  · rintro ⟨fuel, h⟩
    rw [abbreviateLoop_posInf] at h
    exact absurd h (by decide)
  · intro fuel hf
    obtain ⟨f, rfl⟩ : ∃ f, fuel = f + 1 := ⟨fuel - 1, by omega⟩
    have hround : roundMagnitude (999999999999999983222784 / 1000) = 1000 ^ 7 := by
      rw [roundMagnitude_eq (L := 69) (z := 7629394531250000) (by norm_num) (by norm_num)
        (by norm_num) (by norm_num) (by norm_num)]
      norm_num
    rw [abbreviateLoop_step f 999999999999999983222784 (1000 ^ 7) 0
      (by norm_num) (isDouble_pow1000 7 (le_refl _)) (by norm_num), hround,
      abbreviateLoop_pow1000 7 (le_refl _) f (0 + 1) (by omega)]

end Utils

namespace UseBag

theorem truncatedForm_eq (owner : String) : truncatedForm owner = Utils.shortenAddress owner := by
  have h : lastThree owner = owner.data.drop (owner.data.length - 3) := by
    simp [lastThree, List.take_reverse]
  simp only [truncatedForm, Utils.shortenAddress, firstThree, h]
  rfl

theorem set_isSome (o : Obj) (k : String) (v : Val) (k' : String) (h : (o k').isSome = true) :
    ((o.set k v) k').isSome = true := by
  unfold Obj.set
  split_ifs <;> simp [h]

theorem set_of_ne (o : Obj) (k : String) (v : Val) (k' : String) (h : k' ≠ k) :
    (o.set k v) k' = o k' := by
  simp [Obj.set, h]

/-- C9. For every static entry `bagData` (or none) and every token object whose `owner`
is a string, `getBag` sets a record with `isForSale` true exactly when `listingPrice` is
truthy, `price` equal to `listingPrice`, and `shortName` equal to `shortenAddress(owner)`:
the first three characters of `owner`, then `...`, then its last three; with
`listingPrice` null, `isForSale` is false and `price` null. -/
theorem getBag_computed_fields (token : Obj) (bagData : Option Obj) (owner : String)
    (howner : token "owner" = some (.str owner)) :
    ∃ r : Obj, getBag token bagData = some r ∧
      r "isForSale" = some (.bool (token.getProp "listingPrice").truthy) ∧
      (r "isForSale" = some (.bool true) ↔ (token.getProp "listingPrice").truthy = true) ∧
      r "price" = some (token.getProp "listingPrice") ∧
      r "shortName" = some (.str (Utils.shortenAddress owner)) ∧
      r "shortName" = some (.str (truncatedForm owner)) ∧
      (token "listingPrice" = some .null →
        r "isForSale" = some (.bool false) ∧ r "price" = some .null) := by
  have hg : getBag token bagData = some
      ((((Obj.spread (Obj.spread Obj.empty token) (bagData.getD Obj.empty)).set
        "shortName" (.str (Utils.shortenAddress owner))).set
        "isForSale" (.bool (token.getProp "listingPrice").truthy)).set
        "price" (token.getProp "listingPrice")) := by
    simp [getBag, Obj.getProp, howner, callShortenAddress]
  refine ⟨_, hg, ?_, ?_, ?_, ?_, ?_, ?_⟩
  · simp [Obj.set]
  · simp [Obj.set]
  · simp [Obj.set]
  · simp [Obj.set]
  · simp [Obj.set, truncatedForm_eq]
  · intro hnull
    simp [Obj.set, Obj.getProp, hnull, Val.truthy]

theorem getBag_computed_fields_example :
    exampleToken "owner" = some (.str "0xABCDEF0123") ∧
    ∃ r : Obj, getBag exampleToken (some exampleBagData) = some r ∧
      r "isForSale" = some (.bool (exampleToken.getProp "listingPrice").truthy) ∧
      (r "isForSale" = some (.bool true) ↔ (exampleToken.getProp "listingPrice").truthy = true) ∧
      r "price" = some (exampleToken.getProp "listingPrice") ∧
      r "shortName" = some (.str (Utils.shortenAddress "0xABCDEF0123")) ∧
      r "shortName" = some (.str (truncatedForm "0xABCDEF0123")) ∧
      (exampleToken "listingPrice" = some .null →
        r "isForSale" = some (.bool false) ∧ r "price" = some .null) :=
  ⟨by decide,
    getBag_computed_fields exampleToken (some exampleBagData) "0xABCDEF0123" (by decide)⟩

/-- C7, counterexample. With the ENS lookup returning `a.eth`, the ENS/avatar merge
changes the `shortName` the metadata merge had set. -/
theorem ens_merge_replaces_shortName :
    (getBag exampleToken (some exampleBagData)).bind (fun m => m "shortName") =
      some (.str "0xA...123") ∧
    ((getBag exampleToken (some exampleBagData)).bind
      (fun m => getEnsName m exampleUser (.str "a.eth") (.ref 2))).bind
        (fun r => r "shortName") = some (.str "a.eth") := by
  constructor <;> decide

/-- C7, amended. Every field of the record of the metadata merge is still present after
the transfer-history merge and after the ENS/avatar merge, applied to that record or to
the record that already holds the transfers; every field other than `transfers` keeps its
value in the first, every field other than `isOwnBag`, `ownerAvatar` and `shortName` in
the second. When the static entry has no `owner` of its own the ENS/avatar merge does
produce a record, whose `shortName` is the ENS name when the lookup returns one and the
unchanged shortened address when it returns none. -/
theorem merges_keep_fields (token : Obj) (bagData : Option Obj) (m : Obj)
    (hm : getBag token bagData = some m) (transfers : Val) (currentUser : Obj)
    (ens avatar : Val) :
    (∀ k : String, ((m k).isSome = true → ((getTransfers m transfers) k).isSome = true) ∧
      (k ≠ "transfers" → (getTransfers m transfers) k = m k)) ∧
    (∀ b : Obj, b = m ∨ b = getTransfers m transfers →
      (∀ r : Obj, getEnsName b currentUser ens avatar = some r → ∀ k : String,
        ((b k).isSome = true → (r k).isSome = true) ∧
        (k ≠ "isOwnBag" → k ≠ "ownerAvatar" → k ≠ "shortName" → r k = b k)) ∧
      ((bagData.getD Obj.empty) "owner" = none →
        ∃ r : Obj, getEnsName b currentUser ens avatar = some r ∧
          (ens.truthy = true → r "shortName" = some ens) ∧
          (ens.truthy = false → r "shortName" = m "shortName"))) := by
  refine ⟨fun k => ⟨set_isSome m _ _ k, set_of_ne m _ _ k⟩, ?_⟩
  intro b hb
  constructor
  · intro r hr k
    unfold getEnsName at hr
    dsimp only at hr
    cases hx : (if ens.truthy = true then some ens else callShortenAddress (b.getProp "owner")) with
    | none =>
      rw [hx] at hr
      exact absurd hr (by simp)
    | some shortName =>
      rw [hx] at hr
      have hr' := (Option.some.inj hr).symm
      subst hr'
      refine ⟨fun h => ?_, fun h1 h2 h3 => ?_⟩
      · exact set_isSome _ _ _ k (set_isSome _ _ _ k (set_isSome _ _ _ k h))
      · rw [set_of_ne _ _ _ k h3, set_of_ne _ _ _ k h2, set_of_ne _ _ _ k h1]
  · intro hno
    unfold getBag at hm
    cases hshort : callShortenAddress (token.getProp "owner") with
    | none =>
      rw [hshort] at hm
      exact absurd hm (by simp)
    | some shortName =>
      rw [hshort] at hm
      have hm' := (Option.some.inj hm).symm
      subst hm'
      have hbo : b.getProp "owner" = token.getProp "owner" := by
        rcases hb with rfl | rfl <;>
          simp [Obj.getProp, Obj.set, Obj.spread, Obj.empty, getTransfers, hno] <;>
          cases token "owner" <;> rfl
      by_cases hens : ens.truthy = true
      · have hg : getEnsName b currentUser ens avatar = some (((b.set
            "isOwnBag" (.bool ((b.getProp "owner").strictEq (currentUser.getProp "address")))).set
            "ownerAvatar" avatar).set "shortName" ens) := by
          simp [getEnsName, hens]
        refine ⟨_, hg, ?_, ?_⟩
        · intro _
          simp [Obj.set]
        · intro hf
          rw [hens] at hf
          exact absurd hf (by decide)
      · have hg : getEnsName b currentUser ens avatar = some (((b.set
            "isOwnBag" (.bool ((b.getProp "owner").strictEq (currentUser.getProp "address")))).set
            "ownerAvatar" avatar).set "shortName" shortName) := by
          simp [getEnsName, hens, hbo, hshort]
        refine ⟨_, hg, ?_, ?_⟩
        · intro ht
          exact absurd ht hens
        · intro _
          simp [Obj.set]

theorem merges_keep_fields_example :
    getBag exampleToken (some exampleBagData) = some exampleRecord ∧
    ((∀ k : String,
      ((exampleRecord k).isSome = true → ((getTransfers exampleRecord (.ref 1)) k).isSome = true) ∧
      (k ≠ "transfers" → (getTransfers exampleRecord (.ref 1)) k = exampleRecord k)) ∧
    (∀ b : Obj, b = exampleRecord ∨ b = getTransfers exampleRecord (.ref 1) →
      (∀ r : Obj, getEnsName b exampleUser (.str "a.eth") (.ref 2) = some r → ∀ k : String,
        ((b k).isSome = true → (r k).isSome = true) ∧
        (k ≠ "isOwnBag" → k ≠ "ownerAvatar" → k ≠ "shortName" → r k = b k)) ∧
      (((some exampleBagData).getD Obj.empty) "owner" = none →
        ∃ r : Obj, getEnsName b exampleUser (.str "a.eth") (.ref 2) = some r ∧
          ((Val.str "a.eth").truthy = true → r "shortName" = some (.str "a.eth")) ∧
          ((Val.str "a.eth").truthy = false → r "shortName" = exampleRecord "shortName")))) :=
  ⟨rfl, merges_keep_fields exampleToken (some exampleBagData) exampleRecord rfl (.ref 1)
    exampleUser (.str "a.eth") (.ref 2)⟩

/-- C8, the code at the failing input. Once the metadata record `m` is set with a user
signed in, `getTransfers` and `getEnsName` both start and both capture `m`. Whichever
completes last overwrites `bag` with its own merge over `m`: with the transfers arriving
first the final record has no `transfers`; with the name and avatar arriving first it has
neither `isOwnBag` nor `ownerAvatar`. -/
theorem concurrent_merges_lose_fields :
    (∃ m : Obj, getBag exampleToken (some exampleBagData) = some m ∧
      exampleHook.bag = some m ∧
      exampleHook.tasks = [.fetchBag m, .getEnsName m exampleUser]) ∧
    (hookRun exampleHook [.deliver 0 (.value (.ref 1)), .deliver 0 (.value (.str "a.eth")),
      .deliver 0 (.value (.ref 2))]).tasks.length = 0 ∧
    (hookRun exampleHook [.deliver 0 (.value (.ref 1)), .deliver 0 (.value (.str "a.eth")),
      .deliver 0 (.value (.ref 2))]).bagField "transfers" = none ∧
    (hookRun exampleHook [.deliver 0 (.value (.ref 1)), .deliver 0 (.value (.str "a.eth")),
      .deliver 0 (.value (.ref 2))]).bagField "ownerAvatar" = some (.ref 2) ∧
    (hookRun exampleHook [.deliver 1 (.value (.str "a.eth")), .deliver 1 (.value (.ref 2)),
      .deliver 0 (.value (.ref 1))]).tasks.length = 0 ∧
    (hookRun exampleHook [.deliver 1 (.value (.str "a.eth")), .deliver 1 (.value (.ref 2)),
      .deliver 0 (.value (.ref 1))]).bagField "transfers" = some (.ref 1) ∧
    (hookRun exampleHook [.deliver 1 (.value (.str "a.eth")), .deliver 1 (.value (.ref 2)),
      .deliver 0 (.value (.ref 1))]).bagField "isOwnBag" = none ∧
    (hookRun exampleHook [.deliver 1 (.value (.str "a.eth")), .deliver 1 (.value (.ref 2)),
      .deliver 0 (.value (.ref 1))]).bagField "ownerAvatar" = none := by
  refine ⟨⟨_, rfl, rfl, rfl⟩, ?_, ?_, ?_, ?_, ?_, ?_, ?_⟩ <;> decide

end UseBag

namespace ListingModal

set_option maxHeartbeats 1000000 in
theorem seqInv_deliver (p : Props) (env : Env) (s : Modal) (i : Nat) (r : Reply)
    (hinv : SeqInv s) : SeqInv (step p env s (.deliver i r)) := by
  obtain ⟨isOpen, initialized, step1, step2, step3, sa, up, tasks, log⟩ := s
  cases tasks with
  | nil => simpa [step] using hinv
  | cons t ts =>
    cases ts with
    | cons t2 ts2 => exact absurd hinv (by simp [SeqInv])
    | nil =>
      cases i with
      | succ j => simpa [step] using hinv
      | zero =>
        cases t with
        | ownerOf c a =>
          cases r <;> cases a <;> simp [step, SeqInv, Task.inv, resume, Task.accepts, setStep1, setStep2, setStep3, catchStep1,
          catchStep2, catchStep3, executeStep2, executeStep3, initStep] at hinv ⊢ <;>
            (try split_ifs) <;> simp_all [SeqInv, Task.inv, initStep]
        | getApproved c a u =>
          cases r <;> cases a <;> simp [step, SeqInv, Task.inv, resume, Task.accepts, setStep1, setStep2, setStep3, catchStep1,
          catchStep2, catchStep3, executeStep2, executeStep3, initStep] at hinv ⊢ <;>
            (try split_ifs) <;> simp_all [SeqInv, Task.inv, initStep]
        | _ =>
          cases r <;> simp [step, SeqInv, Task.inv, resume, Task.accepts, setStep1, setStep2, setStep3, catchStep1,
          catchStep2, catchStep3, executeStep2, executeStep3, initStep] at hinv ⊢ <;>
            (try split_ifs) <;> simp_all [SeqInv, Task.inv, initStep]

theorem seqInv_effectStep1 (p : Props) (env : Env) (s : Modal) (hinv : SeqInv s)
    (hok : (effectStep1 p env s).log.count .executeStep1 ≠ s.log.count .executeStep1 →
      s.tasks = []) : SeqInv (effectStep1 p env s) := by
  obtain ⟨isOpen, initialized, step1, step2, step3, sa, up, tasks, log⟩ := s
  unfold effectStep1 at hok ⊢
  split_ifs with h1 h2
  · exact hinv
  · rw [if_pos h1, if_neg h2] at hok
    have ht : tasks = [] := by
      apply hok
      simp [executeStep1, setStep1, h2, List.count_append, List.count_cons]
    subst ht
    simp only [] at h2
    simp [executeStep1, setStep1, h2, SeqInv, Task.inv] at hinv ⊢
    tauto
  · exact hinv

theorem seqInv_step (p : Props) (env : Env) (s : Modal) (e : Event)
    (hinv : SeqInv s) (hok : NoOverlap p env s e) : SeqInv (step p env s e) := by
  cases e with
  | deliver i r => exact seqInv_deliver p env s i r hinv
  | initialized a =>
    unfold NoOverlap at hok
    simp only [step] at hok ⊢
    split_ifs with h
    · exact hinv
    · rw [if_neg h] at hok
      exact seqInv_effectStep1 p env _ hinv hok
  | openModal =>
    unfold NoOverlap at hok
    simp only [step] at hok ⊢
    split_ifs with h
    · exact hinv
    · rw [if_neg h] at hok
      exact seqInv_effectStep1 p env _ hinv hok
  | closeModal =>
    unfold NoOverlap at hok
    simp only [step] at hok ⊢
    split_ifs with h
    · rw [if_pos h] at hok
      exact seqInv_effectStep1 p env _ hinv hok
    · exact hinv

theorem seqInv_reach (p : Props) (s : Modal) (h : Reach p (NoOverlap p) s) : SeqInv s := by
  induction h with
  | mount => simp [SeqInv, Modal.mount, initStep]
  | step env e _ hok ih => exact seqInv_step p env _ e ih hok

/-- C3, amended. In every state of a flow in which stage 1 is never started while an
operation is still outstanding (closing and reopening the modal after a failed stage and
the two transaction paths included), `pending` is true only while an operation of that
stage is outstanding; for `step2` and `step3` it is then never true together with a
non-null `success`, for `step1` never together with `success` true. -/
theorem pending_only_while_outstanding (p : Props) (s : Modal) (h : Reach p (NoOverlap p) s) :
    (s.step1.pending = some true → s.outstanding 1 ∧ s.step1.success ≠ some true) ∧
    (s.step2.pending = some true → s.outstanding 2 ∧ s.step2.success = none) ∧
    (s.step3.pending = some true → s.outstanding 3 ∧ s.step3.success = none) := by
  have hinv := seqInv_reach p s h
  obtain ⟨isOpen, initialized, step1, step2, step3, sa, up, tasks, log⟩ := s
  cases tasks with
  | nil =>
    simp [SeqInv] at hinv
    simp [hinv]
  | cons t ts =>
    cases ts with
    | cons t2 ts2 => exact absurd hinv (by simp [SeqInv])
    | nil =>
      cases t <;> simp [SeqInv, Task.inv] at hinv <;>
        simp [Modal.outstanding, Task.stage, hinv, initStep]

set_option maxHeartbeats 1000000 in
theorem started_deliver (p : Props) (env : Env) (s : Modal) (i : Nat) (r : Reply) :
    ((step p env s (.deliver i r)).log.count .executeStep2 ≠ s.log.count .executeStep2 →
      (step p env s (.deliver i r)).step1.success = some true) ∧
    ((step p env s (.deliver i r)).log.count .executeStep3 ≠ s.log.count .executeStep3 →
      (step p env s (.deliver i r)).step2.success = some true) := by
  obtain ⟨isOpen, initialized, step1, step2, step3, sa, up, tasks, log⟩ := s
  simp only [step]
  cases ht : tasks[i]? with
  | none => simp
  | some t =>
    cases t with
    | ownerOf c a =>
      cases r <;> cases a <;>
        simp [resume, Task.accepts, setStep1, setStep2, setStep3, catchStep1,
          catchStep2, catchStep3, executeStep2, executeStep3, List.count_append,
          List.count_cons] <;>
        (try split_ifs) <;> simp_all [List.count_append, List.count_cons]
    | getApproved c a u =>
      cases r <;> cases a <;>
        simp [resume, Task.accepts, setStep1, setStep2, setStep3, catchStep1,
          catchStep2, catchStep3, executeStep2, executeStep3, List.count_append,
          List.count_cons] <;>
        (try split_ifs) <;> simp_all [List.count_append, List.count_cons]
    | _ =>
      cases r <;>
        simp [resume, Task.accepts, setStep1, setStep2, setStep3, catchStep1,
          catchStep2, catchStep3, executeStep2, executeStep3, List.count_append,
          List.count_cons] <;>
        (try split_ifs) <;> simp_all [List.count_append, List.count_cons]

theorem effectStep1_log (p : Props) (env : Env) (s : Modal) :
    (effectStep1 p env s).step1.success = s.step1.success ∧
    (effectStep1 p env s).step2 = s.step2 ∧ (effectStep1 p env s).step3 = s.step3 ∧
    (effectStep1 p env s).signerAddress = s.signerAddress ∧
    (effectStep1 p env s).initialized = s.initialized ∧
    ((effectStep1 p env s).log = s.log ∧ (effectStep1 p env s).tasks = s.tasks ∨
      s.initialized = true ∧ s.step1.success ≠ some true ∧
      (effectStep1 p env s).log = s.log ++ [.executeStep1, .ownerOf p.tokenId] ∧
      (effectStep1 p env s).tasks = s.tasks ++ [.ownerOf s.step1 s.signerAddress]) := by
  unfold effectStep1
  split_ifs with h1 h2
  · simp
  · simp [executeStep1, setStep1, h2, h1.1]
  · simp

/-- C2, amended. Whatever the state and the event, `executeStep2` is started only with
`step1.success` true and `executeStep3` only with `step2.success` true. -/
theorem later_stage_started_only_on_success (p : Props) (env : Env) (s : Modal) (e : Event) :
    ((step p env s e).log.count .executeStep2 ≠ s.log.count .executeStep2 →
      (step p env s e).step1.success = some true) ∧
    ((step p env s e).log.count .executeStep3 ≠ s.log.count .executeStep3 →
      (step p env s e).step2.success = some true) := by
  cases e with
  | deliver i r => exact started_deliver p env s i r
  | initialized a =>
    simp only [step]
    split_ifs with h
    · simp
    · obtain ⟨_, _, _, _, _, hl | ⟨_, _, hl, _⟩⟩ := effectStep1_log p env
        { s with signerAddress := some a, initialized := true }
      · simp [hl.1]
      · simp [hl, List.count_append, List.count_cons]
  | openModal =>
    simp only [step]
    split_ifs with h
    · simp
    · obtain ⟨_, _, _, _, _, hl | ⟨_, _, hl, _⟩⟩ := effectStep1_log p env { s with isOpen := true }
      · simp [hl.1]
      · simp [hl, List.count_append, List.count_cons]
  | closeModal =>
    simp only [step]
    split_ifs with h
    · obtain ⟨_, _, _, _, _, hl | ⟨_, _, hl, _⟩⟩ := effectStep1_log p env { s with isOpen := false }
      · simp [hl.1]
      · simp [hl, List.count_append, List.count_cons]
    · simp

theorem effectStep1_userProxy (p : Props) (env : Env) (s : Modal) :
    (effectStep1 p env s).userProxy = s.userProxy := by
  unfold effectStep1
  split_ifs with h1 h2
  · rfl
  · simp [executeStep1, setStep1, h2]
  · rfl

theorem notOwnerInv_effectStep1 (p : Props) (env : Env) (s : Modal) (h : NotOwnerInv p s) :
    NotOwnerInv p (effectStep1 p env s) := by
  obtain ⟨h1, h2, h3, h4, h5, h6⟩ := h
  obtain ⟨e1, e2, e3, _, _, hl | ⟨_, _, hl, ht⟩⟩ := effectStep1_log p env s
  · refine ⟨by rw [e1]; exact h1, by rw [e2]; exact h2, by rw [e3]; exact h3,
      by rw [effectStep1_userProxy]; exact h4, by rw [hl.2]; exact h5, by rw [hl.1]; exact h6⟩
  · refine ⟨by rw [e1]; exact h1, by rw [e2]; exact h2, by rw [e3]; exact h3,
      by rw [effectStep1_userProxy]; exact h4, ?_, ?_⟩
    · rw [ht]
      intro t htm
      rcases List.mem_append.mp htm with htm | htm
      · exact h5 t htm
      · exact ⟨_, _, List.mem_singleton.mp htm⟩
    · rw [hl]
      intro call hc
      rcases List.mem_append.mp hc with hc | hc
      · exact h6 call hc
      · simpa using hc

theorem ownerOf_differs_step (p : Props) (env : Env) (s : Modal) (i : Nat) (c : Step)
    (a owner : Address) (ht : s.tasks[i]? = some (.ownerOf c (some a)))
    (hne : toLowerCase owner ≠ toLowerCase a) :
    (step p env s (.deliver i (.address owner))).step1 = notOwnerStep ∧
    (step p env s (.deliver i (.address owner))).log = s.log ∧
    (step p env s (.deliver i (.address owner))).tasks = s.tasks.eraseIdx i ∧
    (step p env s (.deliver i (.address owner))).step2 = s.step2 ∧
    (step p env s (.deliver i (.address owner))).step3 = s.step3 ∧
    (step p env s (.deliver i (.address owner))).userProxy = s.userProxy := by
  simp [step, ht, Task.accepts, resume, hne, setStep1, notOwnerStep]

theorem notOwnerInv_deliver (p : Props) (env : Env) (s : Modal) (i : Nat) (r : Reply)
    (h : NotOwnerInv p s) (hok : OwnerDiffers env s (.deliver i r)) :
    NotOwnerInv p (step p env s (.deliver i r)) := by
  obtain ⟨h1, h2, h3, h4, h5, h6⟩ := h
  cases ht : s.tasks[i]? with
  | none =>
    simp only [step, ht]
    exact ⟨h1, h2, h3, h4, h5, h6⟩
  | some t =>
    have hsub : ∀ t' ∈ s.tasks.eraseIdx i, ∃ c a, t' = Task.ownerOf c a :=
      fun t' ht' => h5 t' (List.mem_of_mem_eraseIdx ht')
    obtain ⟨c, a, rfl⟩ := h5 t (List.getElem?_mem ht)
    cases r with
    | address owner =>
      cases a with
      | none =>
        simp only [step, ht, Task.accepts, resume, catchStep1, setStep1]
        simp [NotOwnerInv, h2, h3, h4]
        exact ⟨hsub, h6⟩
      | some a =>
        have hne := hok i owner c a rfl ht
        obtain ⟨e1, e2, e3, e4, e5, e6⟩ := ownerOf_differs_step p env s i c a owner ht hne
        refine ⟨by rw [e1]; simp [notOwnerStep], by rw [e4]; exact h2, by rw [e5]; exact h3,
          by rw [e6]; exact h4, by rw [e3]; exact hsub, by rw [e2]; exact h6⟩
    | fail =>
      simp only [step, ht, Task.accepts, resume, catchStep1, setStep1]
      simp [NotOwnerInv, h2, h3, h4]
      exact ⟨hsub, h6⟩
    | bool b =>
      simp only [step, ht, Task.accepts]
      exact ⟨h1, h2, h3, h4, h5, h6⟩
    | tx hash =>
      simp only [step, ht, Task.accepts]
      exact ⟨h1, h2, h3, h4, h5, h6⟩
    | done =>
      simp only [step, ht, Task.accepts]
      exact ⟨h1, h2, h3, h4, h5, h6⟩

theorem notOwnerInv_reach (p : Props) (s : Modal) (h : Reach p OwnerDiffers s) :
    NotOwnerInv p s := by
  induction h with
  | mount => simp [NotOwnerInv, Modal.mount, initStep]
  | step env e _ hok ih =>
    cases e with
    | deliver i r => exact notOwnerInv_deliver p env _ i r ih hok
    | initialized a =>
      simp only [step]
      split_ifs with h
      · exact ih
      · exact notOwnerInv_effectStep1 p env _ ih
    | openModal =>
      simp only [step]
      split_ifs with h
      · exact ih
      · exact notOwnerInv_effectStep1 p env _ ih
    | closeModal =>
      simp only [step]
      split_ifs with h
      · exact notOwnerInv_effectStep1 p env _ ih
      · exact ih

/-- C1. When the owner `ownerOf` returns differs, lower-cased, from the signer address,
`executeStep1` ends with `step1` the fixed failure record; it makes no call and starts no
step (the history is unchanged, its task is gone and none is added), and `step2`, `step3`
and `userProxy` are untouched. In every state reached through events whose `ownerOf`
replies all differ from the signer, stage 1 has not succeeded, `step2` and `step3` are
still `initStep` and the history holds only `executeStep1` and `ownerOf` entries: no
proxy lookup, no registration, no `executeStep2`, no `executeStep3`. -/
theorem not_owner_halts_flow (p : Props) (env : Env) (s : Modal) (i : Nat) (c : Step)
    (a owner : Address) (ht : s.tasks[i]? = some (.ownerOf c (some a)))
    (hne : toLowerCase owner ≠ toLowerCase a) :
    ((step p env s (.deliver i (.address owner))).step1 =
        { pending := some false, success := some false,
          error := some "Current user is not the owner of the listed token", tx := none } ∧
      (step p env s (.deliver i (.address owner))).log = s.log ∧
      (step p env s (.deliver i (.address owner))).tasks = s.tasks.eraseIdx i ∧
      (step p env s (.deliver i (.address owner))).step2 = s.step2 ∧
      (step p env s (.deliver i (.address owner))).step3 = s.step3 ∧
      (step p env s (.deliver i (.address owner))).userProxy = s.userProxy) ∧
    (∀ s' : Modal, Reach p OwnerDiffers s' →
      s'.step1.success ≠ some true ∧ s'.step2 = initStep ∧ s'.step3 = initStep ∧
      ∀ call ∈ s'.log, call = Call.executeStep1 ∨ call = Call.ownerOf p.tokenId) := by
  refine ⟨ownerOf_differs_step p env s i c a owner ht hne, fun s' hs' => ?_⟩
  obtain ⟨h1, h2, h3, _, _, h6⟩ := notOwnerInv_reach p s' hs'
  exact ⟨h1, h2, h3, h6⟩

theorem not_owner_halts_flow_example :
    exampleOpened.tasks[0]? = some (.ownerOf initStep (some "0x1")) ∧
    toLowerCase "0x2" ≠ toLowerCase "0x1" ∧
    (((step exampleProps exampleEnv exampleOpened (.deliver 0 (.address "0x2"))).step1 =
        { pending := some false, success := some false,
          error := some "Current user is not the owner of the listed token", tx := none } ∧
      (step exampleProps exampleEnv exampleOpened (.deliver 0 (.address "0x2"))).log =
        exampleOpened.log ∧
      (step exampleProps exampleEnv exampleOpened (.deliver 0 (.address "0x2"))).tasks =
        exampleOpened.tasks.eraseIdx 0 ∧
      (step exampleProps exampleEnv exampleOpened (.deliver 0 (.address "0x2"))).step2 =
        exampleOpened.step2 ∧
      (step exampleProps exampleEnv exampleOpened (.deliver 0 (.address "0x2"))).step3 =
        exampleOpened.step3 ∧
      (step exampleProps exampleEnv exampleOpened (.deliver 0 (.address "0x2"))).userProxy =
        exampleOpened.userProxy) ∧
    (∀ s' : Modal, Reach exampleProps OwnerDiffers s' →
      s'.step1.success ≠ some true ∧ s'.step2 = initStep ∧ s'.step3 = initStep ∧
      ∀ call ∈ s'.log, call = Call.executeStep1 ∨ call = Call.ownerOf exampleProps.tokenId)) :=
  ⟨by decide, by decide,
    not_owner_halts_flow exampleProps exampleEnv exampleOpened 0 initStep "0x1" "0x2"
      (by decide) (by decide)⟩

theorem step_deliver_last (p : Props) (env : Env) (s : Modal) (l : List Task) (t : Task)
    (r : Reply) (hts : s.tasks = l ++ [t]) (hacc : t.accepts r = true) :
    step p env s (.deliver l.length r) = resume p env { s with tasks := l } t r := by
  have h1 : s.tasks[l.length]? = some t := by rw [hts]; exact List.getElem?_concat_length l t
  have h2 : s.tasks.eraseIdx l.length = l := by
    rw [hts, List.eraseIdx_append_of_length_le (le_refl _)]
    simp
  simp only [step, h1, hacc, h2, if_true]

/-- C4, amended. When the first `proxies` lookup returns the zero address, stage 1
submits one `registerProxy` transaction, then records its explorer link in `step1.tx`,
waits for it and looks the proxy up again; `step1.success` is not true before that second
lookup returns, and it is set to true, with the link kept and the returned address stored
as `userProxy`, whatever address the second lookup returns. -/
theorem registration_path (p : Props) (e₁ e₂ e₃ e₄ : Env) (s : Modal) (i : Nat) (c : Step)
    (sa : Option Address) (hash : String) (userProxy : Address)
    (ht : s.tasks[i]? = some (.proxies c sa)) (hc : c.success ≠ some true)
    (hs : s.step1.success ≠ some true) :
    let j := s.tasks.length - 1
    let s₁ := step p e₁ s (.deliver i (.address AddressZero))
    let s₂ := step p e₂ s₁ (.deliver j (.tx hash))
    let s₃ := step p e₃ s₂ (.deliver j .done)
    let s₄ := step p e₄ s₃ (.deliver j (.address userProxy))
    s₁.log = s.log ++ [.registerProxy] ∧
    s₂.log = s.log ++ [.registerProxy, .wait hash] ∧
    s₃.log = s.log ++ [.registerProxy, .wait hash, .proxies sa] ∧
    s₄.log.count .registerProxy = s.log.count .registerProxy + 1 ∧
    s₁.step1 = s.step1 ∧
    s₂.step1 = { c with tx := some (explorerLink hash) } ∧
    s₃.step1 = { c with tx := some (explorerLink hash) } ∧
    s₁.step1.success ≠ some true ∧ s₂.step1.success ≠ some true ∧
    s₃.step1.success ≠ some true ∧
    s₄.step1 = { pending := some false, success := some true, error := none,
                 tx := some (explorerLink hash) } ∧
    s₄.userProxy = some userProxy := by
  intro j s₁ s₂ s₃ s₄
  obtain ⟨hi, _⟩ := List.getElem?_eq_some.mp ht
  have hj : j = (s.tasks.eraseIdx i).length := by
    rw [List.length_eraseIdx_of_lt hi]
  have h1 : s₁ = { s with
      log := s.log ++ [.registerProxy]
      tasks := s.tasks.eraseIdx i ++ [.registerProxy c sa] } := by
    simp [s₁, step, ht, Task.accepts, resume]
  have h2 : s₂ = { s with
      step1 := { c with tx := some (explorerLink hash) }
      log := s.log ++ [.registerProxy, .wait hash]
      tasks := s.tasks.eraseIdx i ++ [.waitRegister hash sa] } := by
    have := step_deliver_last p e₂ s₁ (s.tasks.eraseIdx i) (.registerProxy c sa) (.tx hash)
      (by rw [h1]) rfl
    rw [← hj] at this
    simp only [s₂, this, h1, resume, setStep1]
    simp [hc]
  have h3 : s₃ = { s with
      step1 := { c with tx := some (explorerLink hash) }
      log := s.log ++ [.registerProxy, .wait hash, .proxies sa]
      tasks := s.tasks.eraseIdx i ++ [.proxiesAgain hash] } := by
    have := step_deliver_last p e₃ s₂ (s.tasks.eraseIdx i) (.waitRegister hash sa) .done
      (by rw [h2]) rfl
    rw [← hj] at this
    simp only [s₃, this, h2, resume]
    simp
  have h4 : s₄ = setStep1 p e₄
      { pending := some false, success := some true, error := none,
        tx := some (explorerLink hash) }
      { s with
        step1 := { c with tx := some (explorerLink hash) }
        userProxy := some userProxy
        log := s.log ++ [.registerProxy, .wait hash, .proxies sa]
        tasks := s.tasks.eraseIdx i } := by
    have := step_deliver_last p e₄ s₃ (s.tasks.eraseIdx i) (.proxiesAgain hash)
      (.address userProxy) (by rw [h3]) rfl
    rw [← hj] at this
    simp only [s₄, this, h3, resume]
  refine ⟨by rw [h1], by rw [h2], by rw [h3], ?_, by rw [h1], by rw [h2], by rw [h3],
    by rw [h1]; exact hs, by rw [h2]; exact hc, by rw [h3]; exact hc, ?_, ?_⟩
  · rw [h4]
    simp only [setStep1, executeStep2, setStep2, executeStep3, setStep3]
    split_ifs <;> simp [List.count_append, List.count_cons]
  · rw [h4]
    simp only [setStep1, executeStep2, setStep2, executeStep3, setStep3]
    split_ifs <;> simp
  · rw [h4]
    simp only [setStep1, executeStep2, setStep2, executeStep3, setStep3]
    split_ifs <;> simp

theorem registration_path_example :
    exampleLookup.tasks[0]? = some (.proxies initStep (some "0x1")) ∧
    initStep.success ≠ some true ∧ exampleLookup.step1.success ≠ some true ∧
    (let j := exampleLookup.tasks.length - 1
    let s₁ := step exampleProps exampleEnv exampleLookup (.deliver 0 (.address AddressZero))
    let s₂ := step exampleProps exampleEnv s₁ (.deliver j (.tx "0xh"))
    let s₃ := step exampleProps exampleEnv s₂ (.deliver j .done)
    let s₄ := step exampleProps exampleEnv s₃ (.deliver j (.address "0x77"))
    s₁.log = exampleLookup.log ++ [.registerProxy] ∧
    s₂.log = exampleLookup.log ++ [.registerProxy, .wait "0xh"] ∧
    s₃.log = exampleLookup.log ++ [.registerProxy, .wait "0xh", .proxies (some "0x1")] ∧
    s₄.log.count .registerProxy = exampleLookup.log.count .registerProxy + 1 ∧
    s₁.step1 = exampleLookup.step1 ∧
    s₂.step1 = { initStep with tx := some (explorerLink "0xh") } ∧
    s₃.step1 = { initStep with tx := some (explorerLink "0xh") } ∧
    s₁.step1.success ≠ some true ∧ s₂.step1.success ≠ some true ∧
    s₃.step1.success ≠ some true ∧
    s₄.step1 = { pending := some false, success := some true, error := none,
                 tx := some (explorerLink "0xh") } ∧
    s₄.userProxy = some "0x77") :=
  ⟨by decide, by decide, by decide,
    registration_path exampleProps exampleEnv exampleEnv exampleEnv exampleEnv exampleLookup 0
      initStep (some "0x1") "0xh" "0x77" (by decide) (by decide) (by decide)⟩

/-- C4, counterexample. The first `proxies` lookup returns the zero address, the
registration is mined and the second lookup returns the zero address again: stage 1
resolves to success all the same, with the zero address as `userProxy`, and stage 2
starts. -/
theorem zero_proxy_after_registration_succeeds :
    exampleZeroProxy.step1 =
      { pending := some false, success := some true, error := none,
        tx := some "https://rinkeby.etherscan.io/tx/0xh" } ∧
    exampleZeroProxy.userProxy = some AddressZero ∧
    exampleZeroProxy.log.count .registerProxy = 1 ∧
    exampleZeroProxy.log.count .executeStep2 = 1 := by
  decide

/-- C5, the code at the failing input. After `registerProxy` resolved, a rejection of
`tx.wait()` or of the `proxies` lookup that follows is caught by nobody: `step1` keeps
the value the `.then` callback set, with no outcome and no error, and nothing is left
running. The same holds of `wait()` in `executeStep2`. -/
theorem wait_rejection_not_caught :
    exampleWaitRejects.step1 =
      { pending := none, success := none, error := none,
        tx := some "https://rinkeby.etherscan.io/tx/0xh" } ∧
    exampleWaitRejects.tasks = [] ∧
    exampleLookupRejects.step1 =
      { pending := none, success := none, error := none,
        tx := some "https://rinkeby.etherscan.io/tx/0xh" } ∧
    exampleLookupRejects.tasks = [] ∧
    exampleApprovalWaitRejects.step2 =
      { pending := none, success := none, error := none,
        tx := some "https://rinkeby.etherscan.io/tx/0xk" } ∧
    exampleApprovalWaitRejects.tasks = [] := by
  decide

/-- C3, counterexample. Stage 1 fails, the user closes the modal and opens it again:
`executeStep1` restarts and `step1` has `pending` true together with `success` false
and the error of the failed attempt. When the modal is instead reopened while the first
run is still outstanding, the second run can leave `pending` true with no operation
outstanding at all. -/
theorem reopen_after_failure_pending_with_outcome :
    exampleFailed.step1 =
      { pending := some false, success := some false,
        error := some "Could not check/register user proxy", tx := none } ∧
    exampleFailed.tasks = [] ∧
    exampleReopened.step1 =
      { pending := some true, success := some false,
        error := some "Could not check/register user proxy", tx := none } ∧
    exampleOverlap.step1.pending = some true ∧
    exampleOverlap.tasks = [] := by
  decide

/-- C2, counterexample. Stage 1 fails; after the modal is closed and opened again
stage 1 runs anew, succeeds, and `executeStep2` is started. -/
theorem stage2_starts_after_stage1_failed :
    exampleFailed.step1.success = some false ∧
    exampleFailed.log.count .executeStep2 = 0 ∧
    exampleRetried.step1.success = some true ∧
    exampleRetried.log.count .executeStep2 = 1 := by
  decide

theorem later_stage_started_only_on_success_example :
    (step exampleProps exampleEnv exampleLookup (.deliver 0 (.address "0x77"))).log.count
        .executeStep2 ≠ exampleLookup.log.count .executeStep2 ∧
    (step exampleProps exampleEnv exampleLookup (.deliver 0 (.address "0x77"))).step1.success =
      some true :=
  ⟨by decide,
    (later_stage_started_only_on_success exampleProps exampleEnv exampleLookup
      (.deliver 0 (.address "0x77"))).1 (by decide)⟩

theorem pending_only_while_outstanding_example :
    Reach exampleProps (NoOverlap exampleProps) exampleReopened ∧
    ((exampleReopened.step1.pending = some true →
        exampleReopened.outstanding 1 ∧ exampleReopened.step1.success ≠ some true) ∧
      (exampleReopened.step2.pending = some true →
        exampleReopened.outstanding 2 ∧ exampleReopened.step2.success = none) ∧
      (exampleReopened.step3.pending = some true →
        exampleReopened.outstanding 3 ∧ exampleReopened.step3.success = none)) :=
  have h : Reach exampleProps (NoOverlap exampleProps) exampleReopened :=
    Reach.step exampleEnv .openModal
      (Reach.step exampleEnv .closeModal
        (Reach.step exampleEnv (.deliver 0 .fail)
          (Reach.step exampleEnv .openModal
            (Reach.step exampleEnv (.initialized "0x1") Reach.mount
              (by unfold NoOverlap; decide))
            (by unfold NoOverlap; decide))
          (by unfold NoOverlap; decide))
        (by unfold NoOverlap; decide))
      (by unfold NoOverlap; decide)
  ⟨h, pending_only_while_outstanding exampleProps exampleReopened h⟩

set_option maxHeartbeats 1000000 in
theorem deliver_signer (p : Props) (env : Env) (s : Modal) (i : Nat) (r : Reply) :
    (step p env s (.deliver i r)).initialized = s.initialized ∧
    (step p env s (.deliver i r)).signerAddress = s.signerAddress ∧
    (∀ o, Call.sign o ∈ (step p env s (.deliver i r)).log → Call.sign o ∈ s.log ∨
      (o.maker = s.signerAddress ∧ o.feeRecipient = s.signerAddress ∧ o.fee = 0)) := by
  obtain ⟨isOpen, initialized, step1, step2, step3, sa, up, tasks, log⟩ := s
  simp only [step]
  cases ht : tasks[i]? with
  | none =>
    simp only [true_and]
    exact fun o ho => Or.inl ho
  | some t =>
    cases t with
    | ownerOf c a =>
      cases r <;> cases a <;>
        simp [resume, Task.accepts, setStep1, setStep2, setStep3, catchStep1,
          catchStep2, catchStep3, executeStep2, executeStep3] <;>
        (try split_ifs) <;> (try simp_all)
    | getApproved c a u =>
      cases r <;> cases a <;>
        simp [resume, Task.accepts, setStep1, setStep2, setStep3, catchStep1,
          catchStep2, catchStep3, executeStep2, executeStep3] <;>
        (try split_ifs) <;> (try simp_all) <;>
        (try (intro o ho; rcases ho with ho | rfl <;> first | exact Or.inl ho | simp [sellOrder]))
    | _ =>
      cases r <;>
        simp [resume, Task.accepts, setStep1, setStep2, setStep3, catchStep1,
          catchStep2, catchStep3, executeStep2, executeStep3] <;>
        (try split_ifs) <;> (try simp_all) <;>
        (try (intro o ho; rcases ho with ho | rfl <;> first | exact Or.inl ho | simp [sellOrder]))

theorem signerInv_effectStep1 (p : Props) (env : Env) (s : Modal)
    (h2 : s.initialized = true → ∃ a, s.signerAddress = some a)
    (h3 : ∀ o, Call.sign o ∈ s.log →
      o.maker = s.signerAddress ∧ o.feeRecipient = s.signerAddress ∧ o.fee = 0)
    (h1 : s.initialized = false → s.tasks = [] ∧ s.log = []) :
    SignerInv (effectStep1 p env s) := by
  obtain ⟨_, _, _, e4, e5, hl | ⟨hi, _, hl, ht⟩⟩ := effectStep1_log p env s
  · refine ⟨?_, ?_, ?_⟩
    · rw [e5, hl.1, hl.2]; exact h1
    · rw [e5, e4]; exact h2
    · rw [hl.1, e4]; exact h3
  · refine ⟨?_, ?_, ?_⟩
    · intro hf
      rw [e5, hi] at hf
      exact absurd hf (by decide)
    · rw [e5, e4]; exact h2
    · rw [hl, e4]
      intro o ho
      rcases List.mem_append.mp ho with ho | ho
      · exact h3 o ho
      · simp at ho

theorem signerInv_reach (p : Props) (s : Modal) (h : Reach p AnyEvent s) : SignerInv s := by
  induction h with
  | mount => simp [SignerInv, Modal.mount]
  | @step s₀ env e _ _ ih =>
    obtain ⟨h1, h2, h3⟩ := ih
    cases e with
    | deliver i r =>
      obtain ⟨e1, e2, e3⟩ := deliver_signer p env s₀ i r
      by_cases hinit : s₀.initialized = true
      · refine ⟨?_, ?_, ?_⟩
        · rw [e1, hinit]; intro hf; exact absurd hf (by decide)
        · rw [e1, e2]; exact h2
        · intro o ho
          rw [e2]
          rcases e3 o ho with ho | ho
          · exact h3 o ho
          · exact ho
      · have hf : s₀.initialized = false := by simpa using hinit
        have hs : step p env s₀ (.deliver i r) = s₀ := by
          simp [step, (h1 hf).1]
        rw [hs]
        exact ⟨h1, h2, h3⟩
    | initialized a =>
      simp only [step]
      split_ifs with hi
      · exact ⟨h1, h2, h3⟩
      · have hf : s₀.initialized = false := by simpa using hi
        apply signerInv_effectStep1
        · intro _; exact ⟨a, rfl⟩
        · intro o ho
          simp [(h1 hf).2] at ho
        · intro hc
          simp at hc
    | openModal =>
      simp only [step]
      split_ifs with hi
      · exact ⟨h1, h2, h3⟩
      · exact signerInv_effectStep1 p env _ h2 h3 h1
    | closeModal =>
      simp only [step]
      split_ifs with hi
      · exact signerInv_effectStep1 p env _ h2 h3 h1
      · exact ⟨h1, h2, h3⟩

theorem sell_order_maker_is_signer (p : Props) (s : Modal) (h : Reach p AnyEvent s)
    (o : SellOrderArgs) (ho : Call.sign o ∈ s.log) :
    ∃ a : Address, s.signerAddress = some a ∧ o.maker = some a ∧ o.feeRecipient = some a ∧
      o.fee = 0 := by
  obtain ⟨h1, h2, h3⟩ := signerInv_reach p s h
  obtain ⟨hm, hf, hfee⟩ := h3 o ho
  have hinit : s.initialized = true := by
    by_contra hc
    have hf : s.initialized = false := by simpa using hc
    rw [(h1 hf).2] at ho
    simp at ho
  obtain ⟨a, ha⟩ := h2 hinit
  exact ⟨a, ha, by rw [hm, ha], by rw [hf, ha], hfee⟩

/-- C6, the code at the failing input. `executeStep3` takes `maker` and `feeRecipient`
from `signerAddress` with no test of its value: for a signer whose address is the zero
address the flow reaches stage 3, and the order that is signed and posted has the zero
address as `feeRecipient`, equal to `maker`, with `fee` 0. -/
theorem zero_signer_fee_recipient_zero :
    exampleZeroSigner.signerAddress = some AddressZero ∧
    exampleZeroSigner.step1.success = some true ∧
    exampleZeroSigner.step2.success = some true ∧
    exampleZeroSigner.step3.success = some true ∧
    exampleZeroSigner.log.count .executeStep3 = 1 ∧
    Call.sign (sellOrder exampleProps exampleEnv (some AddressZero)) ∈ exampleZeroSigner.log ∧
    Call.post (sellOrder exampleProps exampleEnv (some AddressZero)) ∈ exampleZeroSigner.log ∧
    (sellOrder exampleProps exampleEnv (some AddressZero)).feeRecipient =
      some "0x0000000000000000000000000000000000000000" ∧
    (sellOrder exampleProps exampleEnv (some AddressZero)).maker =
      (sellOrder exampleProps exampleEnv (some AddressZero)).feeRecipient ∧
    (sellOrder exampleProps exampleEnv (some AddressZero)).fee = 0 := by
  decide

end ListingModal
